import Mathlib

/-!
Shallow embedding of the PropChain document storage and access-control
engine (`src/documents/document.service.ts`, `src/documents/document.model.ts`,
`src/config/storage.config.ts`) together with theorems checking the
natural-language specification against it.

Conventions of the embedding:
* JavaScript strings are Lean `String`s; `Buffer`s are byte strings modelled
  as `String`; numbers that the code treats as integers are `Nat`.
* Timestamps (`Date`) are `Nat` milliseconds; `Date#toISOString` output is
  passed around as a `String` where the code formats dates.
* The external `crypto`, `encodeURIComponent` and `URLSearchParams`
  primitives are parameters (`CryptoPrims`): the theorems are about how the
  code composes them, which is exactly the repository's own logic.
* Stateful service methods become explicit state-passing functions; thrown
  exceptions become `Except ServiceError`; the storage backend's and
  `sharp`'s success/failure (external I/O) are per-call oracle inputs.
-/

inductive DocumentAccessLevel
  | PRIVATE
  | RESTRICTED
  | PUBLIC
deriving DecidableEq, Repr

inductive DocumentType
  | DEED
  | INSPECTION_REPORT
  | PHOTO
  | OTHER
deriving DecidableEq, Repr

inductive DocumentStatus
  | ACTIVE
  | ARCHIVED
deriving DecidableEq, Repr

structure DocumentMetadata where
  propertyId : Option String
  title : String
  description : Option String
  tags : List String
  uploadedBy : String
  accessLevel : DocumentAccessLevel
  allowedUserIds : List String
  allowedRoles : List String
  customFields : List (String × String)
deriving DecidableEq, Repr

structure DocumentVersion where
  version : Nat
  storageKey : String
  checksum : String
  size : Nat
  mimeType : String
  createdAt : Nat
  uploadedBy : String
  originalFileName : String
  thumbnailKey : Option String
deriving DecidableEq, Repr

structure DocumentRecord where
  id : String
  type : DocumentType
  metadata : DocumentMetadata
  versions : List DocumentVersion
  currentVersion : Nat
  status : DocumentStatus
  createdAt : Nat
  updatedAt : Nat
deriving DecidableEq, Repr

structure DocumentAccessContext where
  userId : String
  roles : List String
deriving DecidableEq, Repr

structure DocumentMetadataInput where
  propertyId : Option String
  type : Option DocumentType
  title : Option String
  description : Option String
  tags : Option (List String)
  accessLevel : Option DocumentAccessLevel
  allowedUserIds : Option (List String)
  allowedRoles : Option (List String)
  customFields : Option (List (String × String))
  uploadedBy : Option String
deriving DecidableEq, Repr

structure DocumentSearchFilters where
  propertyId : Option String
  type : Option DocumentType
  accessLevel : Option DocumentAccessLevel
  tag : Option String
  uploadedBy : Option String
  mimeType : Option String
  createdAfter : Option Nat
  createdBefore : Option Nat
  search : Option String
deriving DecidableEq, Repr

/-- The three exception classes the document service throws
(`BadRequestException`, `NotFoundException`, `ForbiddenException`). -/
inductive ServiceError
  | badRequest (message : String)
  | notFound (message : String)
  | forbidden (message : String)
deriving DecidableEq, Repr

structure ThumbnailConfig where
  width : Nat
  height : Nat
  format : String
  quality : Nat
deriving DecidableEq, Repr

structure S3Config where
  bucket : String
  region : String
  accessKeyId : Option String
  secretAccessKey : Option String
  endpoint : Option String
  forcePathStyle : Bool
deriving DecidableEq, Repr

structure StorageConfig where
  signedUrlExpiresInSeconds : Nat
  signingSecret : String
  maxFileSizeBytes : Nat
  allowedMimeTypes : List String
  thumbnails : ThumbnailConfig
  s3 : S3Config
deriving DecidableEq, Repr

/-- An `Express.Multer.File`: the fields the service reads. `size` is the
declared size field; `buffer` is the raw content. -/
structure FileUpload where
  originalname : String
  mimetype : String
  size : Nat
  buffer : String
deriving DecidableEq, Repr

/-- JS `Map#get`, on an insertion-ordered association list. -/
def mapGet {α : Type} (m : List (String × α)) (k : String) : Option α :=
  (m.find? (fun p => p.1 == k)).map Prod.snd

/-- JS `Map#set`: replace in place when the key exists, append otherwise. -/
def mapSet {α : Type} (m : List (String × α)) (k : String) (v : α) : List (String × α) :=
  if m.any (fun p => p.1 == k) then
    m.map (fun p => if p.1 == k then (k, v) else p)
  else
    m ++ [(k, v)]

/-- JS string-or-default (`input || fallback`): the empty string is falsy. -/
def jsOrElse (o : Option String) (d : String) : String :=
  match o with
  | some s => if s = "" then d else s
  | none => d

/-- Normalize an optional string filter the way JS truthiness does: an
absent or empty string deactivates the filter. -/
def jsStr (o : Option String) : Option String :=
  match o with
  | some s => if s = "" then none else some s
  | none => none

/-- ASCII whitespace, for the `trim` model. -/
def isWsChar (c : Char) : Bool :=
  c = ' ' ∨ c = '\t' ∨ c = '\n' ∨ c = '\r'

/-- JS `String#trim` (ASCII whitespace). -/
def jsTrim (s : String) : String :=
  String.mk (((s.data.dropWhile isWsChar).reverse.dropWhile isWsChar).reverse)

/-- JS `String#startsWith`. -/
def strStartsWith (s pre : String) : Bool :=
  pre.data.isPrefixOf s.data

/-- JS `String#toLowerCase` (ASCII case folding). -/
def strToLower (s : String) : String :=
  String.mk (s.data.map Char.toLower)

/-- JS `String#endsWith`. -/
def strEndsWith (s suf : String) : Bool :=
  suf.data.reverse.isPrefixOf s.data.reverse

/-- Drop the last character (for the `replace(/\/$/, '')` of the endpoint). -/
def strDropLast (s : String) : String :=
  String.mk s.data.dropLast

/-- Split at the first occurrence of `://`: `some (before, after)`, or
`none` when the separator does not occur. -/
def splitSchemeChars : List Char → Option (List Char × List Char)
  | [] => none
  | c :: rest =>
    if c = ':' then
      match rest with
      | '/' :: '/' :: rest2 => some ([], rest2)
      | _ =>
        match splitSchemeChars rest with
        | some (before, after) => some (c :: before, after)
        | none => none
    else
      match splitSchemeChars rest with
      | some (before, after) => some (c :: before, after)
      | none => none

/-- `DocumentService.hasReadAccess`. -/
def hasReadAccess (document : DocumentRecord) (context : DocumentAccessContext) : Bool :=
  if document.metadata.accessLevel = DocumentAccessLevel.PUBLIC then
    true
  else if document.metadata.uploadedBy = context.userId then
    true
  else if document.metadata.accessLevel = DocumentAccessLevel.RESTRICTED then
    if document.metadata.allowedUserIds.contains context.userId then
      true
    else
      context.roles.any (fun role => document.metadata.allowedRoles.contains role)
  else
    false

/-- `DocumentService.hasWriteAccess`. -/
def hasWriteAccess (document : DocumentRecord) (context : DocumentAccessContext) : Bool :=
  if document.metadata.uploadedBy = context.userId then
    true
  else
    context.roles.any (fun role => document.metadata.allowedRoles.contains role)

/-- Whether `needle` occurs as a contiguous run inside the character list. -/
def includesChars (needle : List Char) : List Char → Bool
  | [] => needle.isEmpty
  | c :: rest => needle.isPrefixOf (c :: rest) || includesChars needle rest

/-- JS `String#includes`. -/
def strIncludes (hay needle : String) : Bool :=
  includesChars needle.data hay.data

/-- The EICAR test signature (`DocumentService.virusSignature`). -/
def virusSignature : String :=
  "X5O!P%@AP[4\\PZX54(P^)7CC)7\x7d$EICAR-STANDARD-ANTIVIRUS-TEST-FILE!$H+H*"

/-- `DocumentService.scanForVirus`. -/
def scanForVirus (buffer : String) : Except ServiceError Unit :=
  if strIncludes buffer virusSignature then
    .error (.badRequest "File failed virus scan")
  else
    .ok ()

/-- `DocumentService.validateFile`. -/
def validateFile (config : StorageConfig) (file : FileUpload) : Except ServiceError Unit :=
  if ¬ config.allowedMimeTypes.contains file.mimetype then
    .error (.badRequest ("Unsupported file type: " ++ file.mimetype))
  else if file.size > config.maxFileSizeBytes then
    .error (.badRequest "File exceeds maximum allowed size")
  else
    .ok ()

/-- `DocumentService.assertContext` (`!context?.userId`). -/
def assertContext (context : DocumentAccessContext) : Except ServiceError Unit :=
  if context.userId = "" then
    .error (.badRequest "User context is required")
  else
    .ok ()

/-- `DocumentService.normalizeMetadata`. -/
def normalizeMetadata (input : DocumentMetadataInput) (context : DocumentAccessContext)
    (preserveOwner : Bool) : DocumentMetadata :=
  { propertyId := input.propertyId
    title := jsOrElse input.title "Untitled document"
    description := input.description
    tags := ((input.tags.getD []).map jsTrim).filter (fun t => t ≠ "")
    uploadedBy :=
      match preserveOwner, input.uploadedBy with
      | true, some u => if u = "" then context.userId else u
      | _, _ => context.userId
    accessLevel := input.accessLevel.getD DocumentAccessLevel.PRIVATE
    allowedUserIds := input.allowedUserIds.getD []
    allowedRoles := input.allowedRoles.getD []
    customFields := input.customFields.getD [] }

/-- Big-endian decimal digits of `n`, with an explicit fuel argument so the
kernel can evaluate it. -/
def natStrGo (fuel : Nat) (n : Nat) (acc : List Char) : List Char :=
  match fuel with
  | 0 => acc
  | fuel + 1 =>
    if n < 10 then
      Nat.digitChar n :: acc
    else
      natStrGo fuel (n / 10) (Nat.digitChar (n % 10) :: acc)

/-- JS `String(n)` for a non-negative integer: decimal rendering. -/
def natStr (n : Nat) : String :=
  String.mk (natStrGo (n + 1) n [])

/-- The character class `[^a-zA-Z0-9._-]` replacement in
`DocumentService.buildStorageKey`. -/
def sanitizeChar (c : Char) : Char :=
  if c.isAlphanum ∨ c = '.' ∨ c = '_' ∨ c = '-' then c else '_'

/-- `fileName.replace(/[^a-zA-Z0-9._-]/g, '_')`. -/
def sanitizeFileName (fileName : String) : String :=
  String.mk (fileName.data.map sanitizeChar)

/-- `DocumentService.buildStorageKey`. -/
def buildStorageKey (documentId : String) (version : Nat) (fileName : String) : String :=
  "documents/" ++ documentId ++ "/v" ++ natStr version ++ "/" ++ sanitizeFileName fileName

/-- The `'GET' | 'PUT'` union type of `StorageProvider.getSignedUrl`. -/
inductive SignMethod
  | GET
  | PUT
deriving DecidableEq, Repr

/-- The literal string of a `SignMethod`. -/
def methodStr : SignMethod → String
  | .GET => "GET"
  | .PUT => "PUT"

/-- Environment of the document service: injected configuration, the
`crypto` SHA-256 hex digest used by `DocumentService.hashBuffer`, and the
storage provider's `getSignedUrl` capability. -/
structure ServiceEnv where
  config : StorageConfig
  hash : String → String
  signer : String → Nat → SignMethod → String

/-- The mutable state owned by the service (`documents` map) together with
the storage backend's object table. -/
structure ServiceState where
  documents : List (String × DocumentRecord)
  storage : List (String × String)
deriving DecidableEq, Repr

/-- Per-call outcome of the external effects inside `createVersion`: whether
the primary `uploadObject` network call succeeds, the bytes `sharp` produces
for the thumbnail (`none` = sharp failed), and whether the thumbnail's own
upload succeeds. -/
structure UploadOutcome where
  uploadOk : Bool
  thumbnailBytes : Option String
  thumbnailUploadOk : Bool
deriving DecidableEq, Repr

/-- `DocumentService.maybeGenerateThumbnail`: only image MIME types get a
thumbnail; every failure inside the `try` block is swallowed. -/
def maybeGenerateThumbnail (env : ServiceEnv) (documentId : String) (versionNumber : Nat)
    (file : FileUpload) (outcome : UploadOutcome) (st : ServiceState) :
    Option String × ServiceState :=
  if ¬ strStartsWith file.mimetype "image/" then
    (none, st)
  else
    match outcome.thumbnailBytes with
    | none => (none, st)
    | some bytes =>
      if outcome.thumbnailUploadOk then
        let thumbnailKey :=
          buildStorageKey documentId versionNumber ("thumbnail." ++ env.config.thumbnails.format)
        (some thumbnailKey, { st with storage := mapSet st.storage thumbnailKey bytes })
      else
        (none, st)

/-- `DocumentService.createVersion`: validate, scan, checksum, upload, then
(best-effort) thumbnail. On error the state is untouched. -/
def createVersion (env : ServiceEnv) (documentId : String) (file : FileUpload)
    (outcome : UploadOutcome) (context : DocumentAccessContext) (now : Nat)
    (versionNumber : Nat) (st : ServiceState) :
    Except ServiceError (DocumentVersion × ServiceState) :=
  match validateFile env.config file with
  | .error e => .error e
  | .ok _ =>
    match scanForVirus file.buffer with
    | .error e => .error e
    | .ok _ =>
      let checksum := env.hash file.buffer
      let storageKey := buildStorageKey documentId versionNumber file.originalname
      if ¬ outcome.uploadOk then
        .error (.badRequest "Failed to upload document to storage")
      else
        let st := { st with storage := mapSet st.storage storageKey file.buffer }
        let (thumbnailKey, st) := maybeGenerateThumbnail env documentId versionNumber file outcome st
        .ok
          ({ version := versionNumber
             storageKey := storageKey
             checksum := checksum
             size := file.size
             mimeType := file.mimetype
             createdAt := now
             uploadedBy := context.userId
             originalFileName := file.originalname
             thumbnailKey := thumbnailKey }, st)

/-- One file of an `uploadDocuments` call: the `uuidv4()` drawn for it, the
file itself and the external-effect outcomes. -/
structure FileOp where
  id : String
  file : FileUpload
  outcome : UploadOutcome
deriving DecidableEq, Repr

/-- The `for (const file of files)` loop of `DocumentService.uploadDocuments`.
Records created before a failing file stay in the map: the exception simply
propagates. -/
def uploadLoop (env : ServiceEnv) (metadata : DocumentMetadata) (docType : DocumentType)
    (context : DocumentAccessContext) (now : Nat) :
    ServiceState → List FileOp → ServiceState × Except ServiceError (List DocumentRecord)
  | st, [] => (st, .ok [])
  | st, op :: rest =>
    match createVersion env op.id op.file op.outcome context now 1 st with
    | .error e => (st, .error e)
    | .ok (version, st') =>
      let record : DocumentRecord :=
        { id := op.id
          type := docType
          metadata := metadata
          versions := [version]
          currentVersion := version.version
          status := DocumentStatus.ACTIVE
          createdAt := now
          updatedAt := now }
      let st'' := { st' with documents := mapSet st'.documents record.id record }
      match uploadLoop env metadata docType context now st'' rest with
      | (stFinal, .ok records) => (stFinal, .ok (record :: records))
      | (stFinal, .error e) => (stFinal, .error e)

/-- `DocumentService.uploadDocuments`. Returns the state after the call
(mutations survive a thrown exception) and the result. -/
def uploadDocuments (env : ServiceEnv) (ops : List FileOp)
    (metadataInput : DocumentMetadataInput) (context : DocumentAccessContext) (now : Nat)
    (st : ServiceState) : ServiceState × Except ServiceError (List DocumentRecord) :=
  if ops.isEmpty then
    (st, .error (.badRequest "At least one file is required"))
  else if context.userId = "" then
    (st, .error (.badRequest "User context is required"))
  else
    let metadata := normalizeMetadata metadataInput context false
    let docType := metadataInput.type.getD DocumentType.OTHER
    uploadLoop env metadata docType context now st ops

/-- `DocumentService.getDocument`. -/
def getDocument (st : ServiceState) (documentId : String)
    (context : DocumentAccessContext) : Except ServiceError DocumentRecord :=
  match assertContext context with
  | .error e => .error e
  | .ok _ =>
    match mapGet st.documents documentId with
    | none => .error (.notFound "Document not found")
    | some document =>
      if hasReadAccess document context then
        .ok document
      else
        .error (.forbidden "You do not have permission to access this document")

/-- `DocumentService.getDocumentForUpdate`: read access via `getDocument`,
then the write check. -/
def getDocumentForUpdate (st : ServiceState) (documentId : String)
    (context : DocumentAccessContext) : Except ServiceError DocumentRecord :=
  match getDocument st documentId context with
  | .error e => .error e
  | .ok document =>
    if hasWriteAccess document context then
      .ok document
    else
      .error (.forbidden "You do not have permission to update this document")

/-- `DocumentService.addDocumentVersion`. -/
def addDocumentVersion (env : ServiceEnv) (documentId : String) (file : FileUpload)
    (outcome : UploadOutcome) (context : DocumentAccessContext) (now : Nat)
    (st : ServiceState) : ServiceState × Except ServiceError DocumentRecord :=
  match assertContext context with
  | .error e => (st, .error e)
  | .ok _ =>
    match getDocumentForUpdate st documentId context with
    | .error e => (st, .error e)
    | .ok document =>
      match createVersion env documentId file outcome context now
          (document.currentVersion + 1) st with
      | .error e => (st, .error e)
      | .ok (version, st') =>
        let updated :=
          { document with
            versions := document.versions ++ [version]
            currentVersion := version.version
            updatedAt := now }
        ({ st' with documents := mapSet st'.documents documentId updated }, .ok updated)

/-- The `{...document.metadata, ...input}` spread in
`DocumentService.updateMetadata`: fields supplied by the input override the
stored metadata, absent fields keep it. -/
def spreadMetadata (metadata : DocumentMetadata) (input : DocumentMetadataInput) :
    DocumentMetadataInput :=
  { propertyId := input.propertyId <|> metadata.propertyId
    type := input.type
    title := input.title <|> some metadata.title
    description := input.description <|> metadata.description
    tags := input.tags <|> some metadata.tags
    accessLevel := input.accessLevel <|> some metadata.accessLevel
    allowedUserIds := input.allowedUserIds <|> some metadata.allowedUserIds
    allowedRoles := input.allowedRoles <|> some metadata.allowedRoles
    customFields := input.customFields <|> some metadata.customFields
    uploadedBy := input.uploadedBy <|> some metadata.uploadedBy }

/-- `DocumentService.updateMetadata`. -/
def updateMetadata (documentId : String) (input : DocumentMetadataInput)
    (context : DocumentAccessContext) (now : Nat) (st : ServiceState) :
    ServiceState × Except ServiceError DocumentRecord :=
  match assertContext context with
  | .error e => (st, .error e)
  | .ok _ =>
    match getDocumentForUpdate st documentId context with
    | .error e => (st, .error e)
    | .ok document =>
      let updatedMetadata := normalizeMetadata (spreadMetadata document.metadata input) context true
      let updated :=
        { document with
          metadata := updatedMetadata
          type := input.type.getD document.type
          updatedAt := now }
      ({ st with documents := mapSet st.documents documentId updated }, .ok updated)

/-- `DocumentService.getCurrentVersion`. -/
def getCurrentVersion (document : DocumentRecord) : Except ServiceError DocumentVersion :=
  match document.versions.find? (fun item => item.version == document.currentVersion) with
  | some version => .ok version
  | none => .error (.notFound "Document version not found")

/-- `DocumentService.getVersion`. -/
def getVersion (document : DocumentRecord) (versionNumber : Nat) :
    Except ServiceError DocumentVersion :=
  match document.versions.find? (fun item => item.version == versionNumber) with
  | some version => .ok version
  | none => .error (.notFound "Document version not found")

/-- `DocumentService.getDownloadUrl`: resolve the version (current when the
number is omitted), then ask the provider for a GET-scoped signed URL. -/
def getDownloadUrl (env : ServiceEnv) (st : ServiceState) (documentId : String)
    (versionNumber : Option Nat) (context : DocumentAccessContext) (now : Nat) :
    Except ServiceError (String × Nat) :=
  match assertContext context with
  | .error e => .error e
  | .ok _ =>
    match getDocument st documentId context with
    | .error e => .error e
    | .ok document =>
      let versionResult :=
        match versionNumber with
        | none => getCurrentVersion document
        | some n => getVersion document n
      match versionResult with
      | .error e => .error e
      | .ok version =>
        let expiresInSeconds := env.config.signedUrlExpiresInSeconds
        .ok (env.signer version.storageKey expiresInSeconds SignMethod.GET,
             now + expiresInSeconds * 1000)

/-- JS `Array#join(' ')`. -/
def joinSpace : List String → String
  | [] => ""
  | [x] => x
  | x :: rest => x ++ " " ++ joinSpace rest

/-- One filter test of `DocumentService.listDocuments` on an optional string
field: `filters.x && document.x !== filters.x`. -/
def strFilterFails (filter : Option String) (value : Option String) : Bool :=
  match jsStr filter with
  | none => false
  | some f => value ≠ some f

/-- The date-range, tag, and free-text checks at the tail of the
`listDocuments` filter chain (the checks after the `mimeType` one). -/
def passRest (filters : DocumentSearchFilters) (filterText tag : Option String)
    (document : DocumentRecord) : Bool :=
  (match filters.createdAfter with
   | some a => decide (¬ document.createdAt < a)
   | none => true) &&
  (match filters.createdBefore with
   | some b => decide (¬ document.createdAt > b)
   | none => true) &&
  (match tag with
   | some t => document.metadata.tags.any (fun documentTag => strToLower documentTag == t)
   | none => true) &&
  (match filterText with
   | some ft =>
     let combined :=
       strToLower
         (document.metadata.title ++ " " ++ document.metadata.description.getD "" ++ " " ++
           joinSpace document.metadata.tags)
     strIncludes combined ft
   | none => true)

/-- Whether `listDocuments` keeps `document`, mirroring the `continue`
chain. The `mimeType` branch can throw (`getCurrentVersion`). -/
def documentPasses (filters : DocumentSearchFilters) (filterText tag : Option String)
    (context : DocumentAccessContext) (document : DocumentRecord) :
    Except ServiceError Bool :=
  if ¬ hasReadAccess document context then
    .ok false
  else if strFilterFails filters.propertyId document.metadata.propertyId then
    .ok false
  else if (match filters.type with | none => false | some f => document.type ≠ f) then
    .ok false
  else if (match filters.accessLevel with
           | none => false
           | some f => document.metadata.accessLevel ≠ f) then
    .ok false
  else if strFilterFails filters.uploadedBy (some document.metadata.uploadedBy) then
    .ok false
  else
    match jsStr filters.mimeType with
    | some m =>
      match getCurrentVersion document with
      | .error e => .error e
      | .ok currentVersion =>
        if currentVersion.mimeType ≠ m then
          .ok false
        else
          .ok (passRest filters filterText tag document)
    | none => .ok (passRest filters filterText tag document)

/-- The iteration of `listDocuments` over the documents map. -/
def listLoop (filters : DocumentSearchFilters) (filterText tag : Option String)
    (context : DocumentAccessContext) :
    List DocumentRecord → Except ServiceError (List DocumentRecord)
  | [] => .ok []
  | document :: rest =>
    match documentPasses filters filterText tag context document with
    | .error e => .error e
    | .ok keep =>
      match listLoop filters filterText tag context rest with
      | .error e => .error e
      | .ok results => .ok (if keep then document :: results else results)

/-- `DocumentService.listDocuments`. -/
def listDocuments (st : ServiceState) (filters : DocumentSearchFilters)
    (context : DocumentAccessContext) : Except ServiceError (List DocumentRecord) :=
  match assertContext context with
  | .error e => .error e
  | .ok _ =>
    let filterText := (jsStr filters.search).map strToLower
    let tag := (jsStr filters.tag).map strToLower
    listLoop filters filterText tag context (st.documents.map Prod.snd)

/-- The external primitives the storage providers compose: Node's `crypto`
SHA-256/HMAC-SHA256 digests (keyed by a string or by a `Buffer`, emitting a
`Buffer` or lowercase hex), the ECMAScript `encodeURIComponent` builtin and
the `application/x-www-form-urlencoded` component encoding used by
`URLSearchParams#toString`. -/
structure CryptoPrims where
  sha256Hex : String → String
  hmacBytesS : String → String → List Nat
  hmacBytes : List Nat → String → List Nat
  hmacHex : List Nat → String → String
  hmacHexS : String → String → String
  encComp : String → String
  formEnc : String → String

/-- JS `Array#join('\n')`. -/
def joinNl : List String → String
  | [] => ""
  | [x] => x
  | x :: rest => x ++ "\n" ++ joinNl rest

/-- JS `Array#join('&')`. -/
def joinAmp : List String → String
  | [] => ""
  | [x] => x
  | x :: rest => x ++ "&" ++ joinAmp rest

/-- JS `Array#join('/')`. -/
def joinSlash : List String → String
  | [] => ""
  | [x] => x
  | x :: rest => x ++ "/" ++ joinSlash rest

/-- JS `String#split('/')` on the underlying characters. -/
def splitSlashChars : List Char → List (List Char)
  | [] => [[]]
  | c :: rest =>
    if c = '/' then
      [] :: splitSlashChars rest
    else
      match splitSlashChars rest with
      | s :: ss => (c :: s) :: ss
      | [] => [[c]]

/-- JS `String#split('/')`. -/
def splitSlash (s : String) : List String :=
  (splitSlashChars s.data).map String.mk

/-- The signature message of `InMemoryStorageProvider.getSignedUrl`:
`` `${method}:${key}:${expiresAt}` `` HMAC'd with the signing secret. -/
def inMemorySignature (p : CryptoPrims) (config : StorageConfig) (nowMs : Nat)
    (key : String) (expiresInSeconds : Nat) (method : SignMethod) : String :=
  let expiresAt := nowMs + expiresInSeconds * 1000
  p.hmacHexS config.signingSecret (methodStr method ++ ":" ++ key ++ ":" ++ natStr expiresAt)

/-- `InMemoryStorageProvider.getSignedUrl`. -/
def inMemoryGetSignedUrl (p : CryptoPrims) (config : StorageConfig) (nowMs : Nat)
    (key : String) (expiresInSeconds : Nat) (method : SignMethod) : String :=
  let expiresAt := nowMs + expiresInSeconds * 1000
  "http://localhost/mock-storage/" ++ p.encComp key ++ "?expires=" ++ natStr expiresAt ++
    "&signature=" ++ inMemorySignature p config nowMs key expiresInSeconds method

/-- `S3StorageProvider.buildBaseUrl`: an explicit endpoint (one trailing
slash stripped) wins; otherwise the path-style or virtual-host-style
amazonaws host. `s3.endpoint` is tested for JS truthiness. -/
def buildBaseUrl (s3 : S3Config) : String :=
  match jsStr s3.endpoint with
  | some endpoint => if strEndsWith endpoint "/" then strDropLast endpoint else endpoint
  | none =>
    if s3.forcePathStyle then
      "https://s3." ++ s3.region ++ ".amazonaws.com"
    else
      "https://" ++ s3.bucket ++ ".s3." ++ s3.region ++ ".amazonaws.com"

/-- `new URL(baseUrl).host` for the URL shapes `buildBaseUrl` produces:
the part between the scheme separator and the first `/`. -/
def hostOfUrl (url : String) : String :=
  let afterScheme :=
    match splitSchemeChars url.data with
    | some (_, after) =>
      match splitSchemeChars after with
      | some (between, _) => between
      | none => after
    | none => url.data
  String.mk (afterScheme.takeWhile (fun c => c ≠ '/'))

/-- `S3StorageProvider.resolveHost`. -/
def resolveHost (s3 : S3Config) : String :=
  hostOfUrl (buildBaseUrl s3)

/-- `S3StorageProvider.buildCanonicalUri`: percent-encode each `/`-segment
of the key, then prefix the bucket in path-style addressing. -/
def buildCanonicalUri (p : CryptoPrims) (bucket : String) (key : String)
    (forcePathStyle : Bool) : String :=
  let encodedKey := joinSlash ((splitSlash key).map p.encComp)
  if forcePathStyle then
    "/" ++ bucket ++ "/" ++ encodedKey
  else
    "/" ++ encodedKey

/-- `S3StorageProvider.toAmzDate`: `date.toISOString()` with every `:`/`-`
and the 3-digit millisecond group removed (ISO-8601 basic). -/
def stripAmz : List Char → List Char
  | [] => []
  | '.' :: a :: b :: c :: rest =>
    if a.isDigit ∧ b.isDigit ∧ c.isDigit then
      stripAmz rest
    else
      '.' :: stripAmz (a :: b :: c :: rest)
  | c :: rest =>
    if c = ':' ∨ c = '-' then stripAmz rest else c :: stripAmz rest

/-- `S3StorageProvider.toAmzDate` applied to the ISO-8601 rendering of the
current time. -/
def toAmzDate (isoNow : String) : String :=
  String.mk (stripAmz isoNow.data)

/-- `S3StorageProvider.toDateStamp`: the `YYYYMMDD` date-stamp. -/
def toDateStamp (isoNow : String) : String :=
  String.mk ((isoNow.data.take 10).filter (fun c => c ≠ '-'))

/-- `URLSearchParams#toString`: each key/value form-encoded and the pairs
joined with `&`, in insertion order. -/
def querySerialize (p : CryptoPrims) (params : List (String × String)) : String :=
  joinAmp (params.map (fun kv => p.formEnc kv.1 ++ "=" ++ p.formEnc kv.2))

/-- `S3StorageProvider.getSignatureKey`: the four-level HMAC chain. -/
def getSignatureKey (p : CryptoPrims) (key dateStamp regionName serviceName : String) :
    List Nat :=
  let kDate := p.hmacBytesS ("AWS4" ++ key) dateStamp
  let kRegion := p.hmacBytes kDate regionName
  let kService := p.hmacBytes kRegion serviceName
  p.hmacBytes kService "aws4_request"

/-- All intermediate values of `S3StorageProvider.getSignedUrl`, mirroring
its local constants, plus the returned URL. -/
structure SignedUrlParts where
  canonicalUri : String
  canonicalQuery : String
  canonicalRequest : String
  stringToSign : String
  signingKey : List Nat
  signature : String
  url : String
deriving DecidableEq, Repr

/-- `S3StorageProvider.getSignedUrl`, keeping every intermediate value.
Missing (or empty, JS falsiness) credentials throw before anything else. -/
def s3SignedUrlParts (p : CryptoPrims) (config : StorageConfig) (isoNow : String)
    (key : String) (expiresInSeconds : Nat) (method : SignMethod) :
    Except ServiceError SignedUrlParts :=
  let s3 := config.s3
  if s3.accessKeyId.getD "" = "" ∨ s3.secretAccessKey.getD "" = "" then
    .error (.badRequest "S3 credentials are not configured")
  else
    let amzDate := toAmzDate isoNow
    let dateStamp := toDateStamp isoNow
    let host := resolveHost s3
    let canonicalUri := buildCanonicalUri p s3.bucket key s3.forcePathStyle
    let scope := dateStamp ++ "/" ++ s3.region ++ "/s3/aws4_request"
    let credential := s3.accessKeyId.getD "" ++ "/" ++ scope
    let queryParams : List (String × String) :=
      [("X-Amz-Algorithm", "AWS4-HMAC-SHA256"),
       ("X-Amz-Credential", credential),
       ("X-Amz-Date", amzDate),
       ("X-Amz-Expires", natStr expiresInSeconds),
       ("X-Amz-SignedHeaders", "host")]
    let canonicalQuery := querySerialize p queryParams
    let canonicalRequest :=
      joinNl [methodStr method, canonicalUri, canonicalQuery,
              "host:" ++ host ++ "\n", "host", "UNSIGNED-PAYLOAD"]
    let stringToSign :=
      joinNl ["AWS4-HMAC-SHA256", amzDate, scope, p.sha256Hex canonicalRequest]
    let signingKey := getSignatureKey p (s3.secretAccessKey.getD "") dateStamp s3.region "s3"
    let signature := p.hmacHex signingKey stringToSign
    let fullQuery := querySerialize p (queryParams ++ [("X-Amz-Signature", signature)])
    let baseUrl := buildBaseUrl s3
    .ok
      { canonicalUri := canonicalUri
        canonicalQuery := canonicalQuery
        canonicalRequest := canonicalRequest
        stringToSign := stringToSign
        signingKey := signingKey
        signature := signature
        url := baseUrl ++ canonicalUri ++ "?" ++ fullQuery }

/-- `S3StorageProvider.getSignedUrl`: just the URL. -/
def s3GetSignedUrl (p : CryptoPrims) (config : StorageConfig) (isoNow : String)
    (key : String) (expiresInSeconds : Nat) (method : SignMethod) :
    Except ServiceError String :=
  (s3SignedUrlParts p config isoNow key expiresInSeconds method).map SignedUrlParts.url

/-- Written from the spec's words (canonical request, step 4): `METHOD \n
CANONICAL_URI \n CANONICAL_QUERY \n host:{host} \n empty line \n host \n
UNSIGNED-PAYLOAD`. To be compared with the source's assembly. -/
def specCanonicalRequest (method canonicalUri canonicalQuery host : String) : String :=
  method ++ "\n" ++ canonicalUri ++ "\n" ++ canonicalQuery ++ "\n" ++
    "host:" ++ host ++ "\n" ++ "\n" ++ "host" ++ "\n" ++ "UNSIGNED-PAYLOAD"

/-- Written from the spec's words: the credential scope
`{date}/{region}/s3/aws4_request`. -/
def specCredentialScope (dateStamp region : String) : String :=
  dateStamp ++ "/" ++ region ++ "/s3/aws4_request"

/-- Written from the spec's words (string-to-sign, step 5):
`'AWS4-HMAC-SHA256' \n timestamp \n scope \n hex(sha256(canonical request))`. -/
def specStringToSign (p : CryptoPrims) (amzDate scope canonicalRequest : String) : String :=
  "AWS4-HMAC-SHA256" ++ "\n" ++ amzDate ++ "\n" ++ scope ++ "\n" ++
    p.sha256Hex canonicalRequest

/-- Written from the spec's words (step 6): the four-level HMAC-SHA256
chain seeded with `"AWS4" + secretKey`, folding in date-stamp, region,
service name `s3`, and the literal `aws4_request`, in that order. -/
def specSigningKey (p : CryptoPrims) (secretKey dateStamp region : String) : List Nat :=
  p.hmacBytes
    (p.hmacBytes (p.hmacBytes (p.hmacBytesS ("AWS4" ++ secretKey) dateStamp) region) "s3")
    "aws4_request"

/-- Written from the spec's words (step 7): the final signature is
`hex(HMAC-SHA256(signingKey, stringToSign))`. -/
def specSignature (p : CryptoPrims) (secretKey dateStamp region amzDate : String)
    (method canonicalUri canonicalQuery host : String) : String :=
  p.hmacHex (specSigningKey p secretKey dateStamp region)
    (specStringToSign p amzDate (specCredentialScope dateStamp region)
      (specCanonicalRequest method canonicalUri canonicalQuery host))

/-- A state-mutating call of the document service, with its external-effect
oracles (`uuidv4` draws, storage/sharp outcomes) made explicit. -/
inductive ServiceOp
  | upload (ops : List FileOp) (metadataInput : DocumentMetadataInput)
      (context : DocumentAccessContext) (now : Nat)
  | addVersion (documentId : String) (file : FileUpload) (outcome : UploadOutcome)
      (context : DocumentAccessContext) (now : Nat)
  | updateMeta (documentId : String) (input : DocumentMetadataInput)
      (context : DocumentAccessContext) (now : Nat)

/-- The state left behind by one service call (mutations survive thrown
exceptions, which only propagate to the caller). -/
def applyOp (env : ServiceEnv) (st : ServiceState) : ServiceOp → ServiceState
  | .upload ops metadataInput context now => (uploadDocuments env ops metadataInput context now st).1
  | .addVersion documentId file outcome context now =>
    (addDocumentVersion env documentId file outcome context now st).1
  | .updateMeta documentId input context now => (updateMetadata documentId input context now st).1

/-- Run a sequence of service calls. -/
def runOps (env : ServiceEnv) : ServiceState → List ServiceOp → ServiceState
  | st, [] => st
  | st, op :: rest => runOps env (applyOp env st op) rest

/-- The initial state: no documents, empty storage. -/
def emptyState : ServiceState :=
  { documents := [], storage := [] }

/-- Freshness of the `uuidv4()` draws of one call: ids of an upload are
pairwise distinct and unused. (In the source `uuidv4` guarantees this.) -/
def opFreshB (st : ServiceState) : ServiceOp → Bool
  | .upload ops _ _ _ =>
    decide ((ops.map FileOp.id).Nodup) &&
      ops.all (fun op => (mapGet st.documents op.id).isNone)
  | _ => true

/-- Freshness of every `uuidv4` draw along a run. -/
def runFreshB (env : ServiceEnv) : ServiceState → List ServiceOp → Bool
  | _, [] => true
  | st, op :: rest => opFreshB st op && runFreshB env (applyOp env st op) rest

/-- The version-number invariant of one record: the version numbers are
exactly `1..currentVersion`, in order, and at least one version exists. -/
def recordInv (r : DocumentRecord) : Prop :=
  r.versions.map DocumentVersion.version = List.range' 1 r.currentVersion ∧
    1 ≤ r.currentVersion

/-- The version-number invariant over a whole state. -/
def stateInv (st : ServiceState) : Prop :=
  ∀ p ∈ st.documents, recordInv p.2

/-- Big-endian decimal digit characters of `n` (`['0']` for zero); the
reference rendering `natStrGo` is proved equal to. -/
def bigDigits (n : Nat) : List Char :=
  if n = 0 then ['0'] else (Nat.digits 10 n).reverse.map Nat.digitChar

/-- The numeric value of a decimal digit character. -/
def charVal (c : Char) : Nat := c.toNat - 48

/-- Base-10 value of a big-endian digit-character list. -/
def decVal (l : List Char) : Nat := l.foldl (fun acc c => acc * 10 + charVal c) 0

/-- An executable injective component encoder whose output never contains
`/`: each character becomes its decimal code point followed by `_`. Used to
instantiate the abstract `encodeURIComponent`/form-encoding parameters in
concrete witnesses. -/
def encCompLite (s : String) : String :=
  String.mk (s.data.flatMap (fun c => (natStr c.toNat).data ++ ['_']))

/-- Concrete executable stand-ins for the crypto/encoding primitives, for
witnesses: injective where the real primitives are collision-free. -/
def litePrims : CryptoPrims :=
  { sha256Hex := fun s => s
    hmacBytesS := fun k m => (k ++ "|" ++ m).data.map Char.toNat
    hmacBytes := fun k m => k ++ m.data.map Char.toNat
    hmacHex := fun _ m => m
    hmacHexS := fun _ m => m
    encComp := encCompLite
    formEnc := fun s => s }

/-- The test-suite configuration (`document.service.spec.ts`). -/
def testConfig : StorageConfig :=
  { signedUrlExpiresInSeconds := 300
    signingSecret := "test-secret"
    maxFileSizeBytes := 10485760
    allowedMimeTypes := ["image/png", "application/pdf"]
    thumbnails := { width := 120, height := 120, format := "webp", quality := 70 }
    s3 := { bucket := "test-bucket"
            region := "us-east-1"
            accessKeyId := some "test"
            secretAccessKey := some "test"
            endpoint := none
            forcePathStyle := true } }

/-- A concrete service environment for witnesses. -/
def testEnv : ServiceEnv :=
  { config := testConfig
    hash := fun s => "sha256(" ++ s ++ ")"
    signer := fun key expiresInSeconds method =>
      "signed:" ++ methodStr method ++ ":" ++ key ++ ":" ++ natStr expiresInSeconds }

/-- A concrete clean PDF upload. -/
def pdfFile : FileUpload :=
  { originalname := "document.pdf"
    mimetype := "application/pdf"
    size := 13
    buffer := "%PDF-1.4 test" }

/-- A concrete upload whose bytes contain the malicious test signature. -/
def eicarFile : FileUpload :=
  { originalname := "virus.pdf"
    mimetype := "application/pdf"
    size := 68
    buffer := virusSignature }

/-- External effects all succeeding, no thumbnail (non-image files). -/
def okOutcome : UploadOutcome :=
  { uploadOk := true, thumbnailBytes := none, thumbnailUploadOk := true }

/-- A metadata input with no field supplied. -/
def emptyInput : DocumentMetadataInput :=
  { propertyId := none, type := none, title := none, description := none, tags := none
    accessLevel := none, allowedUserIds := none, allowedRoles := none, customFields := none
    uploadedBy := none }

/-- A search-filter object with no filter active. -/
def emptyFilters : DocumentSearchFilters :=
  { propertyId := none, type := none, accessLevel := none, tag := none, uploadedBy := none
    mimeType := none, createdAfter := none, createdBefore := none, search := none }

/-- A concrete PRIVATE document owned by `owner-1` whose `allowedRoles`
contains `ADMIN`, used to probe the write-access path. -/
def privateDocWithRole : DocumentRecord :=
  { id := "doc-1"
    type := DocumentType.DEED
    metadata :=
      { propertyId := none
        title := "Deed"
        description := none
        tags := []
        uploadedBy := "owner-1"
        accessLevel := DocumentAccessLevel.PRIVATE
        allowedUserIds := []
        allowedRoles := ["ADMIN"]
        customFields := [] }
    versions :=
      [{ version := 1
         storageKey := "documents/doc-1/v1/document.pdf"
         checksum := "c1"
         size := 13
         mimeType := "application/pdf"
         createdAt := 0
         uploadedBy := "owner-1"
         originalFileName := "document.pdf"
         thumbnailKey := none }]
    currentVersion := 1
    status := DocumentStatus.ACTIVE
    createdAt := 0
    updatedAt := 0 }

/-- A one-document state holding `privateDocWithRole`. -/
def privateDocState : ServiceState :=
  { documents := [("doc-1", privateDocWithRole)], storage := [] }

/-- `Array#join('/')` on raw character lists (proof-level counterpart of
`joinSlash`). -/
def joinSlashChars : List (List Char) → List Char
  | [] => []
  | [x] => x
  | x :: rest => x ++ '/' :: joinSlashChars rest

/-- A small-limit environment (4-byte maximum) for size-check probes. -/
def tinyEnv : ServiceEnv :=
  { config :=
      { signedUrlExpiresInSeconds := 300
        signingSecret := "s"
        maxFileSizeBytes := 4
        allowedMimeTypes := ["application/pdf"]
        thumbnails := { width := 120, height := 120, format := "webp", quality := 70 }
        s3 := { bucket := "b", region := "r", accessKeyId := some "k"
                secretAccessKey := some "sk", endpoint := none, forcePathStyle := true } }
    hash := fun s => "sha256(" ++ s ++ ")"
    signer := fun key expiresInSeconds method =>
      "signed:" ++ methodStr method ++ ":" ++ key ++ ":" ++ natStr expiresInSeconds }

/-- A file whose declared `size` (3) is within `tinyEnv`'s limit while its
buffer holds 6 bytes, beyond the limit. -/
def oversizedBufferFile : FileUpload :=
  { originalname := "b.pdf"
    mimetype := "application/pdf"
    size := 3
    buffer := "123456" }

/-- A two-version document owned by `owner-2` (version 2 current). -/
def twoVersionDoc : DocumentRecord :=
  { id := "doc-2"
    type := DocumentType.DEED
    metadata :=
      { propertyId := none
        title := "Deed"
        description := none
        tags := []
        uploadedBy := "owner-2"
        accessLevel := DocumentAccessLevel.PRIVATE
        allowedUserIds := []
        allowedRoles := []
        customFields := [] }
    versions :=
      [{ version := 1
         storageKey := "documents/doc-2/v1/a.pdf"
         checksum := "c1"
         size := 3
         mimeType := "application/pdf"
         createdAt := 0
         uploadedBy := "owner-2"
         originalFileName := "a.pdf"
         thumbnailKey := none },
       { version := 2
         storageKey := "documents/doc-2/v2/b.pdf"
         checksum := "c2"
         size := 4
         mimeType := "application/pdf"
         createdAt := 1
         uploadedBy := "owner-2"
         originalFileName := "b.pdf"
         thumbnailKey := none }]
    currentVersion := 2
    status := DocumentStatus.ACTIVE
    createdAt := 0
    updatedAt := 1 }

/-- A one-document state holding `twoVersionDoc`. -/
def twoVersionState : ServiceState :=
  { documents := [("doc-2", twoVersionDoc)], storage := [] }

/-! ## Helper lemmas -/

theorem strData_inj {s t : String} (h : s.data = t.data) : s = t :=
  String.ext h

theorem strAppend_cancel_left {a b c : String} (h : a ++ b = a ++ c) : b = c := by
  have hd : a.data ++ b.data = a.data ++ c.data := by
    rw [← String.data_append, ← String.data_append, h]
  exact strData_inj (List.append_cancel_left hd)

theorem strAppend_cancel_right {a b c : String} (h : a ++ c = b ++ c) : a = b := by
  have hd : a.data ++ c.data = b.data ++ c.data := by
    rw [← String.data_append, ← String.data_append, h]
  exact strData_inj (List.append_cancel_right hd)

theorem strAppend_inj {a b x y : String} (h : a ++ x = b ++ y)
    (hl : a.data.length = b.data.length) : a = b ∧ x = y := by
  have hd : a.data ++ x.data = b.data ++ y.data := by
    rw [← String.data_append, ← String.data_append, h]
  obtain ⟨h1, h2⟩ := List.append_inj hd hl
  exact ⟨strData_inj h1, strData_inj h2⟩

theorem mapMemInj {α β : Type} (f : α → β) (l1 l2 : List α) (h : l1.map f = l2.map f)
    (hinj : ∀ a ∈ l1, ∀ b ∈ l2, f a = f b → a = b) : l1 = l2 := by
  induction l1 generalizing l2 with
  | nil => cases l2 <;> simp_all
  | cons x xs ih =>
    cases l2 with
    | nil => simp_all
    | cons y ys =>
      simp only [List.map_cons, List.cons.injEq] at h
      have hxy := hinj x (List.mem_cons_self x xs) y (List.mem_cons_self y ys) h.1
      subst hxy
      have := ih ys h.2
        (fun a ha b hb => hinj a (List.mem_cons_of_mem _ ha) b (List.mem_cons_of_mem _ hb))
      rw [this]

theorem markerSplit {m : Char} {a b u v : List Char} (h : a ++ m :: u = b ++ m :: v)
    (ha : m ∉ a) (hb : m ∉ b) : a = b ∧ u = v := by
  induction a generalizing b with
  | nil =>
    cases b with
    | nil => simpa using h
    | cons y bs =>
      simp only [List.nil_append, List.cons_append, List.cons.injEq] at h
      obtain ⟨h1, -⟩ := h
      rw [h1] at hb
      exact absurd (List.mem_cons_self y bs) hb
  | cons x as ih =>
    cases b with
    | nil =>
      simp only [List.cons_append, List.nil_append, List.cons.injEq] at h
      obtain ⟨h1, -⟩ := h
      rw [← h1] at ha
      exact absurd (List.mem_cons_self x as) ha
    | cons y bs =>
      simp only [List.cons_append, List.cons.injEq] at h
      obtain ⟨h1, h2⟩ := h
      subst h1
      have hr := ih h2 (fun hm => ha (List.mem_cons_of_mem _ hm))
        (fun hm => hb (List.mem_cons_of_mem _ hm))
      exact ⟨by rw [hr.1], hr.2⟩

theorem natStrGo_eq (fuel : Nat) :
    ∀ n acc, n < fuel → natStrGo fuel n acc = bigDigits n ++ acc := by
  induction fuel with
  | zero => intro n acc h; omega
  | succ f ih =>
    intro n acc h
    rw [natStrGo]
    by_cases h10 : n < 10
    · simp only [if_pos h10]
      by_cases h0 : n = 0
      · subst h0; simp [bigDigits]; decide
      · have hd : Nat.digits 10 n = [n] := by
          rw [Nat.digits_def' (by omega : (1:Nat) < 10) (Nat.pos_of_ne_zero h0)]
          simp [Nat.mod_eq_of_lt h10, Nat.div_eq_of_lt h10]
        simp [bigDigits, h0, hd]
    · simp only [if_neg h10]
      have hdlt : n / 10 < f := by
        have : n / 10 < n := Nat.div_lt_self (by omega) (by omega)
        omega
      rw [ih (n/10) _ hdlt]
      have hne : n ≠ 0 := by omega
      have hq : n / 10 ≠ 0 := by
        have : 0 < n / 10 := Nat.div_pos (by omega) (by omega)
        omega
      have hdig : Nat.digits 10 n = n % 10 :: Nat.digits 10 (n/10) :=
        Nat.digits_def' (by omega) (Nat.pos_of_ne_zero hne)
      simp [bigDigits, hne, hq, hdig, List.append_assoc]

theorem charVal_digitChar : ∀ d < 10, charVal (Nat.digitChar d) = d := by decide

theorem decVal_append (l : List Char) (c : Char) :
    decVal (l ++ [c]) = decVal l * 10 + charVal c := by
  simp [decVal, List.foldl_append]

theorem decVal_rev_digits (l : List Nat) (h : ∀ d ∈ l, d < 10) :
    decVal (l.reverse.map Nat.digitChar) = Nat.ofDigits 10 l := by
  induction l with
  | nil => simp [decVal, Nat.ofDigits]
  | cons d t ih =>
    simp only [List.reverse_cons, List.map_append, List.map_cons, List.map_nil]
    rw [decVal_append, ih (fun x hx => h x (List.mem_cons_of_mem _ hx)),
        charVal_digitChar d (h d (List.mem_cons_self d t)), Nat.ofDigits_cons]
    ring

theorem decVal_bigDigits (n : Nat) : decVal (bigDigits n) = n := by
  by_cases h0 : n = 0
  · subst h0; simp [bigDigits, decVal, charVal]
  · rw [bigDigits, if_neg h0,
        decVal_rev_digits _ (fun d hd => Nat.digits_lt_base (by omega) hd),
        Nat.ofDigits_digits]

theorem natStr_data (n : Nat) : (natStr n).data = bigDigits n := by
  rw [natStr]
  show natStrGo (n + 1) n [] = bigDigits n
  rw [natStrGo_eq (n+1) n [] (by omega), List.append_nil]

theorem natStr_inj {m n : Nat} (h : natStr m = natStr n) : m = n := by
  have hd := congrArg String.data h
  rw [natStr_data, natStr_data] at hd
  have := congrArg decVal hd
  rwa [decVal_bigDigits, decVal_bigDigits] at this

theorem digitChar_isDigit : ∀ d < 10, (Nat.digitChar d).isDigit := by decide

theorem bigDigits_isDigit (n : Nat) : ∀ c ∈ bigDigits n, c.isDigit := by
  by_cases h0 : n = 0
  · subst h0; intro c hc; simp [bigDigits] at hc; subst hc; decide
  · rw [bigDigits, if_neg h0]
    intro c hc
    simp only [List.mem_map, List.mem_reverse] at hc
    obtain ⟨d, hd, rfl⟩ := hc
    exact digitChar_isDigit d (Nat.digits_lt_base (by omega) hd)

theorem natStr_isDigit (n : Nat) : ∀ c ∈ (natStr n).data, c.isDigit := by
  intro c hc
  rw [natStr_data] at hc
  exact bigDigits_isDigit n c hc

theorem range'_succ_concat (n : Nat) :
    List.range' 1 (n + 1) = List.range' 1 n ++ [n + 1] := by
  have := @List.range'_concat 1 1 n
  simpa [Nat.add_comm] using this

/-! ## Read access (C1) -/

theorem documentPasses_denied (filters : DocumentSearchFilters) (filterText tag : Option String)
    (context : DocumentAccessContext) (document : DocumentRecord)
    (h : hasReadAccess document context = false) :
    documentPasses filters filterText tag context document = .ok false := by
  simp [documentPasses, h]

theorem listLoop_read (filters : DocumentSearchFilters) (filterText tag : Option String)
    (context : DocumentAccessContext) :
    ∀ docs results, listLoop filters filterText tag context docs = .ok results →
      ∀ x ∈ results, hasReadAccess x context = true := by
  intro docs
  induction docs with
  | nil => intro results h x hx; simp [listLoop] at h; subst h; simp at hx
  | cons d rest ih =>
    intro results h x hx
    rw [listLoop] at h
    cases hp : documentPasses filters filterText tag context d with
    | error e => rw [hp] at h; exact absurd h (by simp)
    | ok keep =>
      rw [hp] at h
      cases hr : listLoop filters filterText tag context rest with
      | error e => rw [hr] at h; exact absurd h (by simp)
      | ok results' =>
        rw [hr] at h
        simp only [Except.ok.injEq] at h
        subst h
        by_cases hk : keep = true
        · subst hk
          simp only [if_pos rfl] at hx
          rcases List.mem_cons.mp hx with hx1 | hx2
          · subst hx1
            by_cases hacc : hasReadAccess x context = true
            · exact hacc
            · rw [documentPasses_denied filters filterText tag context x
                (Bool.not_eq_true _ ▸ hacc)] at hp
              simp at hp
          · exact ih results' hr x hx2
        · rw [Bool.not_eq_true] at hk
          subst hk
          simp only [Bool.false_eq_true, if_neg] at hx
          exact ih results' hr x (by simpa using hx)

/-- C1: read access, as `hasReadAccess` computes it and as `getDocument`,
`listDocuments` and `getDownloadUrl` enforce it, is granted exactly when the
document is PUBLIC, or the caller is the uploader, or the document is
RESTRICTED and the caller's id is in `allowedUserIds` or some caller role is
in `allowedRoles`; in every other case `getDocument` (and `getDownloadUrl`)
raise Forbidden and `listDocuments` omits the record. -/
theorem read_access_exactly
    (st : ServiceState) (documentId : String) (r : DocumentRecord)
    (context : DocumentAccessContext)
    (hctx : context.userId ≠ "")
    (hget : mapGet st.documents documentId = some r) :
    (hasReadAccess r context = true ↔
      (r.metadata.accessLevel = DocumentAccessLevel.PUBLIC ∨
       r.metadata.uploadedBy = context.userId ∨
       (r.metadata.accessLevel = DocumentAccessLevel.RESTRICTED ∧
         (context.userId ∈ r.metadata.allowedUserIds ∨
          ∃ role ∈ context.roles, role ∈ r.metadata.allowedRoles)))) ∧
    (hasReadAccess r context = true → getDocument st documentId context = .ok r) ∧
    (hasReadAccess r context = false →
      getDocument st documentId context =
        .error (.forbidden "You do not have permission to access this document") ∧
      (∀ filters results, listDocuments st filters context = .ok results → r ∉ results) ∧
      (∀ env versionNumber now,
        getDownloadUrl env st documentId versionNumber context now =
          .error (.forbidden "You do not have permission to access this document"))) := by
  refine ⟨?_, ?_, ?_⟩
  · constructor
    · intro h
      by_cases hpub : r.metadata.accessLevel = DocumentAccessLevel.PUBLIC
      · exact Or.inl hpub
      · by_cases hup : r.metadata.uploadedBy = context.userId
        · exact Or.inr (Or.inl hup)
        · refine Or.inr (Or.inr ?_)
          rw [hasReadAccess, if_neg hpub, if_neg hup] at h
          by_cases hres : r.metadata.accessLevel = DocumentAccessLevel.RESTRICTED
          · rw [if_pos hres] at h
            refine ⟨hres, ?_⟩
            by_cases hu : r.metadata.allowedUserIds.contains context.userId = true
            · exact Or.inl (by simpa using hu)
            · rw [if_neg hu] at h
              right
              simpa [List.any_eq_true] using h
          · rw [if_neg hres] at h
            exact absurd h (by simp)
    · intro h
      rcases h with hpub | hup | ⟨hres, hacl⟩
      · simp [hasReadAccess, hpub]
      · rw [hasReadAccess]
        by_cases hpub : r.metadata.accessLevel = DocumentAccessLevel.PUBLIC
        · rw [if_pos hpub]
        · rw [if_neg hpub, if_pos hup]
      · rw [hasReadAccess]
        by_cases hpub : r.metadata.accessLevel = DocumentAccessLevel.PUBLIC
        · rw [if_pos hpub]
        · rw [if_neg hpub]
          by_cases hup : r.metadata.uploadedBy = context.userId
          · rw [if_pos hup]
          · rw [if_neg hup, if_pos hres]
            rcases hacl with hu | ⟨role, hrole, hmem⟩
            · have hc : r.metadata.allowedUserIds.contains context.userId = true := by
                simpa using hu
              rw [if_pos hc]
            · by_cases hu : r.metadata.allowedUserIds.contains context.userId = true
              · rw [if_pos hu]
              · rw [if_neg hu]
                exact List.any_eq_true.mpr ⟨role, hrole, by simpa using hmem⟩
  · intro h
    simp [getDocument, assertContext, hctx, hget, h]
  · intro h
    refine ⟨?_, ?_, ?_⟩
    · simp [getDocument, assertContext, hctx, hget, h]
    · intro filters results hlist hmem
      rw [listDocuments] at hlist
      rw [assertContext, if_neg hctx] at hlist
      have := listLoop_read _ _ _ _ _ _ hlist r hmem
      rw [h] at this
      exact absurd this (by simp)
    · intro env versionNumber now
      simp [getDownloadUrl, getDocument, assertContext, hctx, hget, h]

/-- Witness for C1 at a concrete input: the uploader of a PRIVATE document
reads it back. -/
theorem read_access_exactly_witness :
    getDocument privateDocState "doc-1" ⟨"owner-1", []⟩ = .ok privateDocWithRole :=
  (read_access_exactly privateDocState "doc-1" privateDocWithRole ⟨"owner-1", []⟩
    (by decide) (by decide)).2.1 (by decide)

/-! ## Write access (C2) -/

/-- C2 counterexample: on a PRIVATE document, a caller who is not the
uploader but holds a role listed in `allowedRoles` — so the claim says the
write-path access check succeeds — gets Forbidden from both
`addDocumentVersion` and `updateMetadata`, because `getDocumentForUpdate`
runs the read check first and PRIVATE ignores `allowedRoles`. -/
theorem write_access_claim_counterexample :
    privateDocWithRole.metadata.uploadedBy ≠ "user-2" ∧
    privateDocWithRole.metadata.allowedRoles.contains "ADMIN" = true ∧
    (addDocumentVersion testEnv "doc-1" pdfFile okOutcome ⟨"user-2", ["ADMIN"]⟩ 5
        privateDocState).2 =
      .error (.forbidden "You do not have permission to access this document") ∧
    (updateMetadata "doc-1" emptyInput ⟨"user-2", ["ADMIN"]⟩ 5 privateDocState).2 =
      .error (.forbidden "You do not have permission to access this document") := by
  refine ⟨by decide, by decide, ?_, ?_⟩ <;> rfl

/-- C2 amended: the write-path access check of `addDocumentVersion` and
`updateMetadata` (`getDocumentForUpdate`) succeeds exactly when the caller
passes the read check AND the write check (uploader, or some role in
`allowedRoles`); the uploader always qualifies, but a non-uploader with an
allowed role is still Forbidden when the access level denies them read
access (e.g. PRIVATE). -/
theorem write_access_amended
    (st : ServiceState) (documentId : String) (r : DocumentRecord)
    (context : DocumentAccessContext)
    (hctx : context.userId ≠ "")
    (hget : mapGet st.documents documentId = some r) :
    (hasWriteAccess r context = true ↔
      (r.metadata.uploadedBy = context.userId ∨
       ∃ role ∈ context.roles, role ∈ r.metadata.allowedRoles)) ∧
    (getDocumentForUpdate st documentId context = .ok r ↔
      (hasReadAccess r context = true ∧ hasWriteAccess r context = true)) ∧
    (hasReadAccess r context = false →
      getDocumentForUpdate st documentId context =
        .error (.forbidden "You do not have permission to access this document")) ∧
    (hasReadAccess r context = true → hasWriteAccess r context = false →
      getDocumentForUpdate st documentId context =
        .error (.forbidden "You do not have permission to update this document")) ∧
    (∀ e, getDocumentForUpdate st documentId context = .error e →
      (∀ env file outcome now,
        (addDocumentVersion env documentId file outcome context now st).2 = .error e) ∧
      (∀ input now, (updateMetadata documentId input context now st).2 = .error e)) := by
  have hdoc : getDocument st documentId context =
      (if hasReadAccess r context then .ok r
       else .error (.forbidden "You do not have permission to access this document")) := by
    simp [getDocument, assertContext, hctx, hget]
  refine ⟨?_, ?_, ?_, ?_, ?_⟩
  · constructor
    · intro h
      by_cases hup : r.metadata.uploadedBy = context.userId
      · exact Or.inl hup
      · rw [hasWriteAccess, if_neg hup] at h
        right
        simpa [List.any_eq_true] using h
    · intro h
      rcases h with hup | ⟨role, hrole, hmem⟩
      · simp [hasWriteAccess, hup]
      · rw [hasWriteAccess]
        by_cases hup : r.metadata.uploadedBy = context.userId
        · rw [if_pos hup]
        · rw [if_neg hup]
          exact List.any_eq_true.mpr ⟨role, hrole, by simpa using hmem⟩
  · rw [getDocumentForUpdate, hdoc]
    by_cases hr : hasReadAccess r context = true
    · rw [if_pos hr]
      by_cases hw : hasWriteAccess r context = true
      · simp [hr, hw]
      · simp [hr, hw]
    · rw [if_neg hr]
      simp only [Bool.not_eq_true] at hr
      simp [hr]
  · intro h
    rw [getDocumentForUpdate, hdoc, h]
    simp
  · intro hr hw
    simp [getDocumentForUpdate, hdoc, hr, hw]
  · intro e he
    constructor
    · intro env file outcome now
      simp [addDocumentVersion, assertContext, hctx, he]
    · intro input now
      simp [updateMetadata, assertContext, hctx, he]

/-- Witness for the amended C2 at a concrete input: the uploader passes the
write-path access check of their PRIVATE document. -/
theorem write_access_amended_witness :
    getDocumentForUpdate privateDocState "doc-1" ⟨"owner-1", []⟩ = .ok privateDocWithRole :=
  (write_access_amended privateDocState "doc-1" privateDocWithRole ⟨"owner-1", []⟩
    (by decide) (by decide)).2.1.mpr ⟨by decide, by decide⟩

/-! ## Owner field on upload (C9) -/

theorem uploadLoop_metadata (env : ServiceEnv) (md : DocumentMetadata)
    (docType : DocumentType) (context : DocumentAccessContext) (now : Nat) :
    ∀ ops st st' records,
      uploadLoop env md docType context now st ops = (st', .ok records) →
      ∀ rec ∈ records, rec.metadata = md := by
  intro ops
  induction ops with
  | nil =>
    intro st st' records h rec hrec
    rw [uploadLoop] at h
    simp only [Prod.mk.injEq, Except.ok.injEq] at h
    rw [← h.2] at hrec
    simp at hrec
  | cons op rest ih =>
    intro st st' records h rec hrec
    rw [uploadLoop] at h
    cases hc : createVersion env op.id op.file op.outcome context now 1 st with
    | error e => rw [hc] at h; simp at h
    | ok pair =>
      rw [hc] at h
      obtain ⟨version, st1⟩ := pair
      dsimp only at h
      have hrecDef : ∃ newRec : DocumentRecord, newRec =
          { id := op.id, type := docType, metadata := md, versions := [version],
            currentVersion := version.version, status := DocumentStatus.ACTIVE,
            createdAt := now, updatedAt := now } := ⟨_, rfl⟩
      obtain ⟨newRec, hnewRec⟩ := hrecDef
      rw [← hnewRec] at h
      have hmid : ∃ stMid : ServiceState, stMid =
          { st1 with documents := mapSet st1.documents op.id newRec } := ⟨_, rfl⟩
      obtain ⟨stMid, hstMid⟩ := hmid
      rw [← hstMid] at h
      cases hl : uploadLoop env md docType context now stMid rest with
      | mk stF res =>
        cases res with
        | error e => rw [hl] at h; simp at h
        | ok records' =>
          rw [hl] at h
          simp only [Prod.mk.injEq, Except.ok.injEq] at h
          rw [← h.2] at hrec
          rcases List.mem_cons.mp hrec with hr1 | hr2
          · rw [hr1, hnewRec]
          · exact ih _ _ _ hl rec hr2

/-- C9: `uploadDocuments` ignores any `uploadedBy` supplied in the metadata
input — every created record's `metadata.uploadedBy` is the caller's
`context.userId` (`normalizeMetadata` is called without `preserveOwner`) —
while the owner-override path (`preserveOwner = true`, honoured when the
input supplies a truthy `uploadedBy`) is reachable only from
`updateMetadata`. -/
theorem upload_ignores_supplied_owner
    (env : ServiceEnv) (ops : List FileOp) (metadataInput : DocumentMetadataInput)
    (context : DocumentAccessContext) (now : Nat) (st st' : ServiceState)
    (records : List DocumentRecord)
    (h : uploadDocuments env ops metadataInput context now st = (st', .ok records)) :
    (normalizeMetadata metadataInput context false).uploadedBy = context.userId ∧
    (∀ rec ∈ records, rec.metadata.uploadedBy = context.userId) ∧
    (∀ documentId input st2 st2' rec u now2,
      input.uploadedBy = some u → u ≠ "" →
      updateMetadata documentId input context now2 st2 = (st2', .ok rec) →
      rec.metadata.uploadedBy = u) := by
  refine ⟨?_, ?_, ?_⟩
  · cases hu : metadataInput.uploadedBy <;> simp [normalizeMetadata, hu]
  · intro rec hrec
    rw [uploadDocuments] at h
    by_cases hops : ops.isEmpty
    · rw [if_pos hops] at h; simp at h
    · rw [if_neg hops] at h
      by_cases hctx : context.userId = ""
      · rw [if_pos hctx] at h; simp at h
      · rw [if_neg hctx] at h
        have := uploadLoop_metadata env (normalizeMetadata metadataInput context false)
          (metadataInput.type.getD DocumentType.OTHER) context now ops st st' records h rec hrec
        rw [this]
        cases hu : metadataInput.uploadedBy <;> simp [normalizeMetadata, hu]
  · intro documentId input st2 st2' rec u now2 hu hne hupd
    rw [updateMetadata] at hupd
    cases ha : assertContext context with
    | error e => rw [ha] at hupd; simp at hupd
    | ok _ =>
      rw [ha] at hupd
      cases hdoc : getDocumentForUpdate st2 documentId context with
      | error e => rw [hdoc] at hupd; simp at hupd
      | ok document =>
        rw [hdoc] at hupd
        simp only [Prod.mk.injEq, Except.ok.injEq] at hupd
        rw [← hupd.2]
        simp [normalizeMetadata, spreadMetadata, hu, hne]

/-- Witness for C9 at a concrete input: supplying `uploadedBy = "intruder"`
to `uploadDocuments` still records the caller. -/
theorem upload_ignores_supplied_owner_witness :
    (normalizeMetadata { emptyInput with uploadedBy := some "intruder" }
      ⟨"user-9", []⟩ false).uploadedBy = "user-9" :=
  (upload_ignores_supplied_owner testEnv [⟨"doc-9", pdfFile, okOutcome⟩]
    { emptyInput with uploadedBy := some "intruder" } ⟨"user-9", []⟩ 7 emptyState
    _ _ rfl).1

/-! ## Declared size vs buffer bytes (C10) -/

/-- C10: for an accepted file the recorded version's `size` is the file's
declared `size` field — the same value `validateFile`'s maximum-size check
inspects — while the checksum is the hash of the buffer's actual bytes; the
byte length of the buffer is never constrained, so a file whose declared
size is within the limit is accepted even when its buffer is larger. -/
theorem recorded_size_is_declared_size
    (env : ServiceEnv) (documentId : String) (file : FileUpload) (outcome : UploadOutcome)
    (context : DocumentAccessContext) (now versionNumber : Nat) (st : ServiceState)
    (hmime : env.config.allowedMimeTypes.contains file.mimetype = true)
    (hsize : file.size ≤ env.config.maxFileSizeBytes)
    (hclean : strIncludes file.buffer virusSignature = false)
    (hup : outcome.uploadOk = true) :
    ∃ version st',
      createVersion env documentId file outcome context now versionNumber st =
        .ok (version, st') ∧
      version.size = file.size ∧
      version.checksum = env.hash file.buffer := by
  have hmem : file.mimetype ∈ env.config.allowedMimeTypes := by simpa using hmime
  have h1 : validateFile env.config file = .ok () := by
    rw [validateFile]
    simp [hmem, show ¬ file.size > env.config.maxFileSizeBytes by omega]
  have h2 : scanForVirus file.buffer = .ok () := by
    rw [scanForVirus, hclean]
    simp
  unfold createVersion
  rw [h1, h2]
  dsimp only
  rw [hup]
  simp only [not_true_eq_false, Bool.false_eq_true, if_false]
  cases hmg : maybeGenerateThumbnail env documentId versionNumber file outcome
      { st with storage := (mapSet st.storage (buildStorageKey documentId versionNumber file.originalname) file.buffer) } with
  | mk thumbnailKey st2 =>
    exact ⟨_, st2, rfl, rfl, rfl⟩

/-- Witness for C10 at a concrete input: a file with declared size 3 and a
6-byte buffer is accepted under a 4-byte limit, recording size 3 and the
checksum of all 6 bytes. -/
theorem recorded_size_is_declared_size_witness :
    oversizedBufferFile.buffer.length > tinyEnv.config.maxFileSizeBytes ∧
    ∃ version st',
      createVersion tinyEnv "doc-10" oversizedBufferFile okOutcome ⟨"user-10", []⟩ 3 1
        emptyState = .ok (version, st') ∧
      version.size = oversizedBufferFile.size ∧
      version.checksum = tinyEnv.hash oversizedBufferFile.buffer :=
  ⟨by decide,
   recorded_size_is_declared_size tinyEnv "doc-10" oversizedBufferFile okOutcome
     ⟨"user-10", []⟩ 3 1 emptyState (by decide) (by decide) (by decide) rfl⟩

/-! ## Signed-URL configuration errors (C6) -/

/-- C6 counterexample: with credentials configured, the durable provider's
`getSignedUrl` called with `expiresInSeconds = 0` is not rejected as invalid
input — it succeeds and returns a (signed) URL. -/
theorem s3_zero_expiry_counterexample :
    (s3SignedUrlParts litePrims testConfig "2024-01-02T03:04:05.678Z"
      "documents/d/v1/a.pdf" 0 SignMethod.GET).isOk = true := by
  rfl

/-- C6 amended: `getSignedUrl` of the durable provider fails (raises, never
returns a URL) exactly when the configured access key id or secret access
key is missing or empty — so it never silently produces an unsigned URL —
but it performs no validation of `expiresInSeconds`: a zero (or negative)
expiry still yields a signed URL. -/
theorem s3_credentials_fail_fast
    (p : CryptoPrims) (config : StorageConfig) (isoNow key : String)
    (expiresInSeconds : Nat) (method : SignMethod) :
    (s3SignedUrlParts p config isoNow key expiresInSeconds method =
        .error (.badRequest "S3 credentials are not configured") ↔
      (config.s3.accessKeyId.getD "" = "" ∨ config.s3.secretAccessKey.getD "" = "")) ∧
    ((s3SignedUrlParts p config isoNow key expiresInSeconds method).isOk = true ↔
      (config.s3.accessKeyId.getD "" ≠ "" ∧ config.s3.secretAccessKey.getD "" ≠ "")) := by
  constructor
  · constructor
    · intro heq
      by_contra hc
      push_neg at hc
      unfold s3SignedUrlParts at heq
      rw [if_neg (by tauto)] at heq
      exact absurd heq (by simp)
    · intro h
      unfold s3SignedUrlParts
      rw [if_pos h]
  · unfold s3SignedUrlParts
    by_cases h : config.s3.accessKeyId.getD "" = "" ∨ config.s3.secretAccessKey.getD "" = ""
    · rw [if_pos h]
      constructor
      · intro hk
        exact absurd hk (by simp [Except.isOk, Except.toBool])
      · intro hk
        tauto
    · rw [if_neg h]
      push_neg at h
      simp [Except.isOk, Except.toBool, h]

/-! ## Malicious-content rejection (C4) -/

theorem validateFile_error_badRequest (config : StorageConfig) (file : FileUpload)
    (e : ServiceError) (h : validateFile config file = .error e) :
    ∃ msg, e = .badRequest msg := by
  unfold validateFile at h
  split_ifs at h with h1 h2 <;> simp only [Except.error.injEq] at h
  · exact ⟨_, h.symm⟩
  · exact ⟨_, h.symm⟩

theorem scanForVirus_ok_iff (buffer : String) :
    scanForVirus buffer = .ok () ↔ strIncludes buffer virusSignature = false := by
  unfold scanForVirus
  by_cases h : strIncludes buffer virusSignature = true
  · simp [h]
  · simp only [Bool.not_eq_true] at h
    simp [h]

theorem createVersion_error_badRequest (env : ServiceEnv) (documentId : String)
    (file : FileUpload) (outcome : UploadOutcome) (context : DocumentAccessContext)
    (now versionNumber : Nat) (st : ServiceState) (e : ServiceError)
    (h : createVersion env documentId file outcome context now versionNumber st = .error e) :
    ∃ msg, e = .badRequest msg := by
  unfold createVersion at h
  cases hv : validateFile env.config file with
  | error e' =>
    rw [hv] at h
    simp only [Except.error.injEq] at h
    exact h ▸ validateFile_error_badRequest env.config file e' hv
  | ok u =>
    obtain ⟨⟩ := u
    rw [hv] at h
    cases hs : scanForVirus file.buffer with
    | error e' =>
      rw [hs] at h
      simp only [Except.error.injEq] at h
      unfold scanForVirus at hs
      split_ifs at hs with h1 <;> simp only [Except.error.injEq] at hs
      exact ⟨_, h ▸ hs.symm⟩
    | ok u' =>
      obtain ⟨⟩ := u'
      rw [hs] at h
      dsimp only at h
      by_cases hup : outcome.uploadOk = true
      · rw [hup] at h
        simp only [not_true_eq_false, Bool.false_eq_true, if_false] at h
        cases hmg : maybeGenerateThumbnail env documentId versionNumber file outcome
            { st with storage := (mapSet st.storage (buildStorageKey documentId versionNumber file.originalname) file.buffer) } with
        | mk tk st2 =>
          rw [hmg] at h
          simp at h
      · simp only [Bool.not_eq_true] at hup
        rw [hup] at h
        simp only [Bool.false_eq_true, not_false_eq_true, if_true, Except.error.injEq] at h
        exact ⟨_, h.symm⟩

theorem createVersion_ok_clean (env : ServiceEnv) (documentId : String)
    (file : FileUpload) (outcome : UploadOutcome) (context : DocumentAccessContext)
    (now versionNumber : Nat) (st : ServiceState) (pair : DocumentVersion × ServiceState)
    (h : createVersion env documentId file outcome context now versionNumber st = .ok pair) :
    strIncludes file.buffer virusSignature = false := by
  unfold createVersion at h
  cases hv : validateFile env.config file with
  | error e' => rw [hv] at h; simp at h
  | ok u =>
    obtain ⟨⟩ := u
    rw [hv] at h
    cases hs : scanForVirus file.buffer with
    | error e' => rw [hs] at h; simp at h
    | ok u' =>
      obtain ⟨⟩ := u'
      exact (scanForVirus_ok_iff file.buffer).mp hs

theorem uploadLoop_append_ok (env : ServiceEnv) (md : DocumentMetadata)
    (docType : DocumentType) (context : DocumentAccessContext) (now : Nat) :
    ∀ pre st st1 records,
      uploadLoop env md docType context now st pre = (st1, .ok records) →
      ∀ suf, uploadLoop env md docType context now st (pre ++ suf) =
        (match uploadLoop env md docType context now st1 suf with
         | (st2, .ok records2) => (st2, .ok (records ++ records2))
         | (st2, .error e) => (st2, .error e)) := by
  intro pre
  induction pre with
  | nil =>
    intro st st1 records h suf
    rw [uploadLoop] at h
    simp only [Prod.mk.injEq, Except.ok.injEq] at h
    rw [List.nil_append, ← h.1, ← h.2]
    cases hres : uploadLoop env md docType context now st suf with
    | mk st2 res => cases res <;> simp
  | cons op rest ih =>
    intro st st1 records h suf
    rw [List.cons_append, uploadLoop]
    rw [uploadLoop] at h
    cases hc : createVersion env op.id op.file op.outcome context now 1 st with
    | error e => rw [hc] at h; simp at h
    | ok pair =>
      rw [hc] at h
      obtain ⟨version, stA⟩ := pair
      dsimp only at h ⊢
      have hrecDef : ∃ newRec : DocumentRecord, newRec =
          { id := op.id, type := docType, metadata := md, versions := [version],
            currentVersion := version.version, status := DocumentStatus.ACTIVE,
            createdAt := now, updatedAt := now } := ⟨_, rfl⟩
      obtain ⟨newRec, hnewRec⟩ := hrecDef
      rw [← hnewRec] at h ⊢
      have hmid : ∃ stMid : ServiceState, stMid =
          { stA with documents := mapSet stA.documents op.id newRec } := ⟨_, rfl⟩
      obtain ⟨stMid, hstMid⟩ := hmid
      rw [← hstMid] at h ⊢
      cases hl : uploadLoop env md docType context now stMid rest with
      | mk stF res =>
        cases res with
        | error e => rw [hl] at h; simp at h
        | ok records' =>
          rw [hl] at h
          simp only [Prod.mk.injEq, Except.ok.injEq] at h
          rw [ih stMid stF records' hl suf]
          rw [← h.1, ← h.2]
          cases hres : uploadLoop env md docType context now stF suf with
          | mk st2 res2 => cases res2 <;> simp

theorem uploadLoop_virus_head (env : ServiceEnv) (md : DocumentMetadata)
    (docType : DocumentType) (context : DocumentAccessContext) (now : Nat)
    (st : ServiceState) (bad : FileOp) (rest : List FileOp)
    (hvirus : strIncludes bad.file.buffer virusSignature = true) :
    ∃ msg, uploadLoop env md docType context now st (bad :: rest) =
      (st, .error (.badRequest msg)) := by
  rw [uploadLoop]
  cases hc : createVersion env bad.id bad.file bad.outcome context now 1 st with
  | error e =>
    obtain ⟨msg, hmsg⟩ := createVersion_error_badRequest env bad.id bad.file bad.outcome
      context now 1 st e hc
    exact ⟨msg, by rw [hmsg]⟩
  | ok pair =>
    have := createVersion_ok_clean env bad.id bad.file bad.outcome context now 1 st pair hc
    rw [hvirus] at this
    exact absurd this (by simp)

/-- C4 counterexample: a call whose second file carries the malicious test
signature does raise InvalidRequest, but the document store is NOT left
unchanged — the first (clean) file's record has already been created and
persists, and its bytes were uploaded. -/
theorem upload_virus_counterexample :
    (uploadDocuments testEnv [⟨"doc-a", pdfFile, okOutcome⟩, ⟨"doc-b", eicarFile, okOutcome⟩]
        emptyInput ⟨"user-3", []⟩ 9 emptyState).2 =
      .error (.badRequest "File failed virus scan") ∧
    (uploadDocuments testEnv [⟨"doc-a", pdfFile, okOutcome⟩, ⟨"doc-b", eicarFile, okOutcome⟩]
        emptyInput ⟨"user-3", []⟩ 9 emptyState).1.documents ≠ emptyState.documents ∧
    (mapGet (uploadDocuments testEnv [⟨"doc-a", pdfFile, okOutcome⟩, ⟨"doc-b", eicarFile, okOutcome⟩]
        emptyInput ⟨"user-3", []⟩ 9 emptyState).1.documents "doc-a").isSome = true := by
  refine ⟨rfl, ?_, rfl⟩
  intro heq
  have h1 : (1 : Nat) = 0 := congrArg List.length heq
  exact Nat.one_ne_zero h1

/-- C4 amended: when the file list contains a file whose bytes include the
malicious test signature and every file before it processes successfully,
`uploadDocuments` raises InvalidRequest (a BadRequest — the virus-scan
rejection, or an earlier validation failure of that same file), performs no
storage upload for the offending file and creates no record for it or any
later file: the final state is exactly the state after the preceding files,
whose records persist. -/
theorem upload_virus_rejected_amended
    (env : ServiceEnv) (pre : List FileOp) (bad : FileOp) (rest : List FileOp)
    (metadataInput : DocumentMetadataInput) (context : DocumentAccessContext)
    (now : Nat) (st st1 : ServiceState) (records : List DocumentRecord)
    (hctx : context.userId ≠ "")
    (hvirus : strIncludes bad.file.buffer virusSignature = true)
    (hpre : uploadLoop env (normalizeMetadata metadataInput context false)
        (metadataInput.type.getD DocumentType.OTHER) context now st pre = (st1, .ok records)) :
    ∃ msg, uploadDocuments env (pre ++ bad :: rest) metadataInput context now st =
      (st1, .error (.badRequest msg)) := by
  obtain ⟨msg, hmsg⟩ := uploadLoop_virus_head env (normalizeMetadata metadataInput context false)
    (metadataInput.type.getD DocumentType.OTHER) context now st1 bad rest hvirus
  refine ⟨msg, ?_⟩
  rw [uploadDocuments]
  rw [if_neg (by simp), if_neg hctx]
  rw [uploadLoop_append_ok env (normalizeMetadata metadataInput context false)
    (metadataInput.type.getD DocumentType.OTHER) context now pre st st1 records hpre
    (bad :: rest)]
  rw [hmsg]

/-- Witness for the amended C4 at a concrete input: clean file then EICAR
file — the call fails with the virus-scan error and the state is exactly the
one after the clean file. -/
theorem upload_virus_rejected_amended_witness :
    ∃ msg, uploadDocuments testEnv ([⟨"doc-a", pdfFile, okOutcome⟩] ++
        [⟨"doc-b", eicarFile, okOutcome⟩]) emptyInput ⟨"user-3", []⟩ 9 emptyState =
      ((uploadLoop testEnv (normalizeMetadata emptyInput ⟨"user-3", []⟩ false)
          (emptyInput.type.getD DocumentType.OTHER) ⟨"user-3", []⟩ 9 emptyState
          [⟨"doc-a", pdfFile, okOutcome⟩]).1, .error (.badRequest msg)) :=
  upload_virus_rejected_amended testEnv [⟨"doc-a", pdfFile, okOutcome⟩]
    ⟨"doc-b", eicarFile, okOutcome⟩ [] emptyInput ⟨"user-3", []⟩ 9 emptyState _ _
    (by decide) (by decide) rfl

/-! ## Download-URL version resolution (C8) -/

theorem findVersion_of_range (l : List DocumentVersion) :
    ∀ s m, l.map DocumentVersion.version = List.range' s m →
      (∀ k, s ≤ k → k < s + m →
        ∃ v, l.find? (fun item => item.version == k) = some v ∧ v.version = k ∧
          l.get? (k - s) = some v) ∧
      (∀ k, k < s ∨ s + m ≤ k → l.find? (fun item => item.version == k) = none) := by
  induction l with
  | nil =>
    intro s m h
    have hm : m = 0 := by
      cases m with
      | zero => rfl
      | succ m' => rw [List.range'_succ] at h; simp at h
    subst hm
    exact ⟨fun k h1 h2 => by omega, fun k hk => by simp⟩
  | cons v t ih =>
    intro s m h
    cases m with
    | zero => simp at h
    | succ m' =>
      rw [List.range'_succ] at h
      simp only [List.map_cons, List.cons.injEq] at h
      obtain ⟨hv, ht⟩ := h
      obtain ⟨ih1, ih2⟩ := ih (s+1) m' ht
      constructor
      · intro k hk1 hk2
        by_cases hks : k = s
        · subst hks
          refine ⟨v, ?_, hv, ?_⟩
          · rw [List.find?]
            have : (v.version == k) = true := by simp [hv]
            simp only [hv]
            simp
          · simp
        · have hfind : (v.version == k) = false := by simp [hv]; omega
          obtain ⟨w, hw1, hw2, hw3⟩ := ih1 k (by omega) (by omega)
          refine ⟨w, ?_, hw2, ?_⟩
          · rw [List.find?, hfind]
            exact hw1
          · have : k - s = (k - (s+1)) + 1 := by omega
            rw [this]
            simpa using hw3
      · intro k hk
        have hfind : (v.version == k) = false := by simp [hv]; omega
        rw [List.find?, hfind]
        exact ih2 k (by omega)

/-- C8: for a document whose version numbers are `1..n` and a caller with
read access, `getDownloadUrl` with an explicit version `k` in `1..n`
requests the signed URL for version `k`'s own `storageKey` (the `k-1`-th
stored version — so after adding version 2, asking for version 1 still
resolves version 1's key), with method GET and the configured expiry,
returning `{url, expiresAt}`; with the version omitted it uses the current
version's key; for `k` outside `1..n` it raises NotFound. -/
theorem download_url_resolves_requested_version
    (env : ServiceEnv) (st : ServiceState) (documentId : String) (r : DocumentRecord)
    (context : DocumentAccessContext) (now n : Nat)
    (hctx : context.userId ≠ "")
    (hget : mapGet st.documents documentId = some r)
    (hread : hasReadAccess r context = true)
    (hvers : r.versions.map DocumentVersion.version = List.range' 1 n) :
    (∀ k, 1 ≤ k → k ≤ n →
      ∃ v, r.versions.get? (k - 1) = some v ∧ v.version = k ∧
        getDownloadUrl env st documentId (some k) context now =
          .ok (env.signer v.storageKey env.config.signedUrlExpiresInSeconds SignMethod.GET,
               now + env.config.signedUrlExpiresInSeconds * 1000)) ∧
    (r.currentVersion = n → 1 ≤ n →
      ∃ v, r.versions.get? (n - 1) = some v ∧ v.version = n ∧
        getDownloadUrl env st documentId none context now =
          .ok (env.signer v.storageKey env.config.signedUrlExpiresInSeconds SignMethod.GET,
               now + env.config.signedUrlExpiresInSeconds * 1000)) ∧
    (∀ k, k < 1 ∨ n < k →
      getDownloadUrl env st documentId (some k) context now =
        .error (.notFound "Document version not found")) := by
  have hdoc : getDocument st documentId context = .ok r := by
    simp [getDocument, assertContext, hctx, hget, hread]
  obtain ⟨hfound, hnone⟩ := findVersion_of_range r.versions 1 n hvers
  refine ⟨?_, ?_, ?_⟩
  · intro k hk1 hk2
    obtain ⟨v, hv1, hv2, hv3⟩ := hfound k hk1 (by omega)
    refine ⟨v, hv3, hv2, ?_⟩
    rw [getDownloadUrl]
    rw [assertContext, if_neg hctx]
    rw [hdoc]
    dsimp only
    rw [getVersion, hv1]
  · intro hcur hn
    obtain ⟨v, hv1, hv2, hv3⟩ := hfound n hn (by omega)
    refine ⟨v, hv3, hv2, ?_⟩
    rw [getDownloadUrl]
    rw [assertContext, if_neg hctx]
    rw [hdoc]
    dsimp only
    rw [getCurrentVersion, hcur, hv1]
  · intro k hk
    rw [getDownloadUrl]
    rw [assertContext, if_neg hctx]
    rw [hdoc]
    dsimp only
    rw [getVersion, hnone k (by omega)]

/-- Witness for C8 at a concrete input: on a two-version document,
requesting version 1 resolves version 1's storage key, not version 2's. -/
theorem download_url_resolves_requested_version_witness :
    ∃ v, twoVersionDoc.versions.get? 0 = some v ∧ v.version = 1 ∧
      getDownloadUrl testEnv twoVersionState "doc-2" (some 1) ⟨"owner-2", []⟩ 50 =
        .ok (testEnv.signer v.storageKey testEnv.config.signedUrlExpiresInSeconds
              SignMethod.GET,
             50 + testEnv.config.signedUrlExpiresInSeconds * 1000) :=
  (download_url_resolves_requested_version testEnv twoVersionState "doc-2" twoVersionDoc
    ⟨"owner-2", []⟩ 50 2 (by decide) (by decide) (by decide) (by decide)).1 1
    (by decide) (by decide)

/-! ## Map lemmas (for C5) -/

theorem mapGet_mem {α : Type} (m : List (String × α)) (k : String) (v : α)
    (h : mapGet m k = some v) : (k, v) ∈ m := by
  unfold mapGet at h
  cases hf : m.find? (fun p => p.1 == k) with
  | none => rw [hf] at h; simp at h
  | some p =>
    rw [hf] at h
    simp only [Option.map_some', Option.some.injEq] at h
    have hmem := List.mem_of_find?_eq_some hf
    have hkey := List.find?_some hf
    obtain ⟨p1, p2⟩ := p
    simp only [beq_iff_eq] at hkey
    subst hkey
    subst h
    exact hmem

theorem mem_mapSet {α : Type} (m : List (String × α)) (k : String) (v : α)
    (p : String × α) (h : p ∈ mapSet m k v) : p ∈ m ∨ p = (k, v) := by
  unfold mapSet at h
  split_ifs at h with hany
  · obtain ⟨q, hq, hfq⟩ := List.mem_map.mp h
    by_cases hqk : (q.1 == k) = true
    · rw [if_pos hqk] at hfq
      exact Or.inr hfq.symm
    · rw [if_neg hqk] at hfq
      exact Or.inl (hfq ▸ hq)
  · rcases List.mem_append.mp h with h1 | h2
    · exact Or.inl h1
    · simp only [List.mem_singleton] at h2
      exact Or.inr h2

theorem findPair_map_set {α : Type} (k : String) (v : α) :
    ∀ m : List (String × α), m.any (fun p => p.1 == k) = true →
      (m.map (fun p => if p.1 == k then (k, v) else p)).find? (fun p => p.1 == k) =
        some (k, v) := by
  intro m
  induction m with
  | nil => intro h; simp at h
  | cons q t ih =>
    intro h
    simp only [List.map_cons]
    by_cases hqk : (q.1 == k) = true
    · rw [List.find?, if_pos hqk]
      simp
    · rw [List.find?, if_neg hqk]
      have : ((q : String × α).1 == k) = false := by simpa using hqk
      simp only [this]
      simp only [List.any_cons, this, Bool.false_or] at h
      exact ih h

theorem findPair_append_last {α : Type} (k : String) (v : α) :
    ∀ m : List (String × α), m.any (fun p => p.1 == k) = false →
      (m ++ [(k, v)]).find? (fun p => p.1 == k) = some (k, v) := by
  intro m
  induction m with
  | nil => simp
  | cons q t ih =>
    intro h
    simp only [List.any_cons, Bool.or_eq_false_iff] at h
    rw [List.cons_append, List.find?, h.1]
    exact ih h.2

theorem findPair_map_set_ne {α : Type} (k k' : String) (v : α) (hne : k ≠ k') :
    ∀ m : List (String × α),
      (m.map (fun p => if p.1 == k' then (k', v) else p)).find? (fun p => p.1 == k) =
        m.find? (fun p => p.1 == k) := by
  intro m
  induction m with
  | nil => simp
  | cons q t ih =>
    simp only [List.map_cons]
    by_cases hqk : (q.1 == k') = true
    · rw [if_pos hqk]
      have h1 : ((k', v).1 == k) = false := by
        simp only [beq_eq_false_iff_ne]
        exact Ne.symm hne
      have h2 : (q.1 == k) = false := by
        simp only [beq_iff_eq] at hqk
        simp only [beq_eq_false_iff_ne, hqk]
        exact Ne.symm hne
      rw [List.find?, h1, List.find?, h2]
      exact ih
    · rw [if_neg hqk]
      rw [List.find?, List.find?]
      cases hq : (q.1 == k) with
      | false => exact ih
      | true => rfl

theorem findPair_append_ne {α : Type} (k k' : String) (v : α) (hne : k ≠ k') :
    ∀ m : List (String × α),
      (m ++ [(k', v)]).find? (fun p => p.1 == k) = m.find? (fun p => p.1 == k) := by
  intro m
  induction m with
  | nil =>
    simp only [List.nil_append, List.find?]
    have h1 : ((k', v).1 == k) = false := by
      simp only [beq_eq_false_iff_ne]
      exact Ne.symm hne
    rw [h1]
  | cons q t ih =>
    rw [List.cons_append, List.find?, List.find?]
    cases hq : (q.1 == k) with
    | false => exact ih
    | true => rfl

theorem mapGet_mapSet_self {α : Type} (m : List (String × α)) (k : String) (v : α) :
    mapGet (mapSet m k v) k = some v := by
  unfold mapGet mapSet
  split_ifs with hany
  · rw [findPair_map_set k v m hany]
    rfl
  · rw [findPair_append_last k v m (Bool.eq_false_iff.mpr hany)]
    rfl

theorem mapGet_mapSet_ne {α : Type} (m : List (String × α)) (k k' : String) (v : α)
    (hne : k ≠ k') : mapGet (mapSet m k' v) k = mapGet m k := by
  unfold mapGet mapSet
  split_ifs with hany
  · rw [findPair_map_set_ne k k' v hne m]
  · rw [findPair_append_ne k k' v hne m]

/-! ## Version-number invariant (C5) -/

theorem maybeGenerateThumbnail_documents (env : ServiceEnv) (documentId : String)
    (versionNumber : Nat) (file : FileUpload) (outcome : UploadOutcome) (st : ServiceState) :
    (maybeGenerateThumbnail env documentId versionNumber file outcome st).2.documents =
      st.documents := by
  unfold maybeGenerateThumbnail
  by_cases h1 : strStartsWith file.mimetype "image/" = true <;>
    cases hb : outcome.thumbnailBytes <;>
      by_cases h2 : outcome.thumbnailUploadOk = true <;>
        simp [h1, h2, hb]

theorem createVersion_ok_shape (env : ServiceEnv) (documentId : String) (file : FileUpload)
    (outcome : UploadOutcome) (context : DocumentAccessContext) (now versionNumber : Nat)
    (st : ServiceState) (version : DocumentVersion) (st' : ServiceState)
    (h : createVersion env documentId file outcome context now versionNumber st =
      .ok (version, st')) :
    version.version = versionNumber ∧ st'.documents = st.documents := by
  unfold createVersion at h
  cases hv : validateFile env.config file with
  | error e => rw [hv] at h; simp at h
  | ok u =>
    obtain ⟨⟩ := u
    rw [hv] at h
    cases hs : scanForVirus file.buffer with
    | error e => rw [hs] at h; simp at h
    | ok u' =>
      obtain ⟨⟩ := u'
      rw [hs] at h
      dsimp only at h
      by_cases hup : outcome.uploadOk = true
      · rw [hup] at h
        simp only [not_true_eq_false, Bool.false_eq_true, if_false] at h
        simp only [Except.ok.injEq, Prod.mk.injEq] at h
        obtain ⟨hver, hst⟩ := h
        constructor
        · rw [← hver]
        · rw [← hst]
          exact maybeGenerateThumbnail_documents env documentId versionNumber file outcome _
      · simp only [Bool.not_eq_true] at hup
        rw [hup] at h
        simp at h

theorem getDocumentForUpdate_ok_mapGet (st : ServiceState) (documentId : String)
    (context : DocumentAccessContext) (document : DocumentRecord)
    (h : getDocumentForUpdate st documentId context = .ok document) :
    mapGet st.documents documentId = some document := by
  unfold getDocumentForUpdate getDocument at h
  cases ha : assertContext context with
  | error e => rw [ha] at h; simp at h
  | ok u =>
    obtain ⟨⟩ := u
    rw [ha] at h
    cases hg : mapGet st.documents documentId with
    | none => rw [hg] at h; simp at h
    | some d =>
      rw [hg] at h
      dsimp only at h
      split_ifs at h with h1
      dsimp only at h
      split_ifs at h with h2
      simp only [Except.ok.injEq] at h
      rw [h]

theorem stateInv_set (docs : List (String × DocumentRecord)) (k : String)
    (r : DocumentRecord) (hinv : ∀ p ∈ docs, recordInv p.2) (hr : recordInv r) :
    ∀ p ∈ mapSet docs k r, recordInv p.2 := by
  intro p hp
  rcases mem_mapSet docs k r p hp with h1 | h2
  · exact hinv p h1
  · rw [h2]
    exact hr

theorem uploadLoop_inv (env : ServiceEnv) (md : DocumentMetadata) (docType : DocumentType)
    (context : DocumentAccessContext) (now : Nat) :
    ∀ ops st, stateInv st →
      stateInv (uploadLoop env md docType context now st ops).1 := by
  intro ops
  induction ops with
  | nil => intro st h; exact h
  | cons op rest ih =>
    intro st h
    rw [uploadLoop]
    cases hc : createVersion env op.id op.file op.outcome context now 1 st with
    | error e => exact h
    | ok pair =>
      obtain ⟨version, st1⟩ := pair
      obtain ⟨hver, hdocs⟩ := createVersion_ok_shape env op.id op.file op.outcome context
        now 1 st version st1 hc
      dsimp only
      have hrecDef : ∃ newRec : DocumentRecord, newRec =
          { id := op.id, type := docType, metadata := md, versions := [version],
            currentVersion := version.version, status := DocumentStatus.ACTIVE,
            createdAt := now, updatedAt := now } := ⟨_, rfl⟩
      obtain ⟨newRec, hnewRec⟩ := hrecDef
      rw [← hnewRec]
      have hmidInv : stateInv { st1 with documents := mapSet st1.documents op.id newRec } := by
        intro p hp
        refine stateInv_set st1.documents op.id newRec ?_ ?_ p hp
        · intro q hq
          apply h
          rw [← hdocs]
          exact hq
        · rw [hnewRec]
          constructor
          · simp [hver, List.range']
          · simp [hver]
      have := ih { st1 with documents := mapSet st1.documents op.id newRec } hmidInv
      cases hl : uploadLoop env md docType context now
          { st1 with documents := mapSet st1.documents op.id newRec } rest with
      | mk stF res =>
        rw [hl] at this
        cases res with
        | error e => exact this
        | ok records' => exact this

theorem addVersion_inv (env : ServiceEnv) (documentId : String) (file : FileUpload)
    (outcome : UploadOutcome) (context : DocumentAccessContext) (now : Nat)
    (st : ServiceState) (hinv : stateInv st) :
    stateInv (addDocumentVersion env documentId file outcome context now st).1 := by
  rw [addDocumentVersion]
  cases ha : assertContext context with
  | error e => exact hinv
  | ok u =>
    obtain ⟨⟩ := u
    dsimp only
    cases hd : getDocumentForUpdate st documentId context with
    | error e => exact hinv
    | ok document =>
      dsimp only
      cases hc : createVersion env documentId file outcome context now
          (document.currentVersion + 1) st with
      | error e => exact hinv
      | ok pair =>
        obtain ⟨version, st1⟩ := pair
        obtain ⟨hver, hdocs⟩ := createVersion_ok_shape env documentId file outcome context
          now (document.currentVersion + 1) st version st1 hc
        dsimp only
        have hdocInv : recordInv document := by
          have hmem := mapGet_mem _ _ _
            (getDocumentForUpdate_ok_mapGet st documentId context document hd)
          exact hinv (documentId, document) hmem
        intro p hp
        refine stateInv_set st1.documents documentId _ ?_ ?_ p hp
        · intro q hq
          apply hinv
          rw [← hdocs]
          exact hq
        · obtain ⟨h1, h2⟩ := hdocInv
          constructor
          · show (document.versions ++ [version]).map DocumentVersion.version =
              List.range' 1 version.version
            rw [List.map_append, h1]
            simp only [List.map_cons, List.map_nil]
            rw [hver, range'_succ_concat]
          · show 1 ≤ version.version
            omega

theorem updateMeta_inv (documentId : String) (input : DocumentMetadataInput)
    (context : DocumentAccessContext) (now : Nat) (st : ServiceState)
    (hinv : stateInv st) :
    stateInv (updateMetadata documentId input context now st).1 := by
  rw [updateMetadata]
  cases ha : assertContext context with
  | error e => exact hinv
  | ok u =>
    obtain ⟨⟩ := u
    dsimp only
    cases hd : getDocumentForUpdate st documentId context with
    | error e => exact hinv
    | ok document =>
      dsimp only
      have hdocInv : recordInv document := by
        have hmem := mapGet_mem _ _ _
          (getDocumentForUpdate_ok_mapGet st documentId context document hd)
        exact hinv (documentId, document) hmem
      intro p hp
      refine stateInv_set st.documents documentId _ hinv ?_ p hp
      exact hdocInv

theorem applyOp_inv (env : ServiceEnv) (st : ServiceState) (op : ServiceOp)
    (hinv : stateInv st) : stateInv (applyOp env st op) := by
  cases op with
  | upload ops metadataInput context now =>
    show stateInv (uploadDocuments env ops metadataInput context now st).1
    rw [uploadDocuments]
    split_ifs with h1 h2
    · exact hinv
    · exact hinv
    · exact uploadLoop_inv env _ _ context now ops st hinv
  | addVersion documentId file outcome context now =>
    exact addVersion_inv env documentId file outcome context now st hinv
  | updateMeta documentId input context now =>
    exact updateMeta_inv documentId input context now st hinv

theorem runOps_inv (env : ServiceEnv) :
    ∀ ops st, stateInv st → stateInv (runOps env st ops) := by
  intro ops
  induction ops with
  | nil => intro st h; exact h
  | cons op rest ih =>
    intro st h
    exact ih (applyOp env st op) (applyOp_inv env st op h)

theorem uploadLoop_preserves_other (env : ServiceEnv) (md : DocumentMetadata)
    (docType : DocumentType) (context : DocumentAccessContext) (now : Nat) :
    ∀ ops st k, (∀ op ∈ ops, op.id ≠ k) →
      mapGet ((uploadLoop env md docType context now st ops).1).documents k =
        mapGet st.documents k := by
  intro ops
  induction ops with
  | nil => intro st k h; rfl
  | cons op rest ih =>
    intro st k h
    rw [uploadLoop]
    cases hc : createVersion env op.id op.file op.outcome context now 1 st with
    | error e => rfl
    | ok pair =>
      obtain ⟨version, st1⟩ := pair
      obtain ⟨hver, hdocs⟩ := createVersion_ok_shape env op.id op.file op.outcome context
        now 1 st version st1 hc
      dsimp only
      have hrecDef : ∃ newRec : DocumentRecord, newRec =
          { id := op.id, type := docType, metadata := md, versions := [version],
            currentVersion := version.version, status := DocumentStatus.ACTIVE,
            createdAt := now, updatedAt := now } := ⟨_, rfl⟩
      obtain ⟨newRec, hnewRec⟩ := hrecDef
      rw [← hnewRec]
      have hne : op.id ≠ k := h op (List.mem_cons_self op rest)
      have hmid : mapGet (mapSet st1.documents op.id newRec) k = mapGet st.documents k := by
        rw [mapGet_mapSet_ne st1.documents k op.id newRec (fun he => hne he.symm), hdocs]
      have hrest := ih { st1 with documents := mapSet st1.documents op.id newRec } k
        (fun q hq => h q (List.mem_cons_of_mem op hq))
      cases hl : uploadLoop env md docType context now
          { st1 with documents := mapSet st1.documents op.id newRec } rest with
      | mk stF res =>
        rw [hl] at hrest
        cases res with
        | error e =>
          show mapGet stF.documents k = mapGet st.documents k
          rw [hrest, hmid]
        | ok records' =>
          show mapGet stF.documents k = mapGet st.documents k
          rw [hrest, hmid]

theorem applyOp_prefix (env : ServiceEnv) (st : ServiceState) (op : ServiceOp)
    (hfresh : opFreshB st op = true) (k : String) (r : DocumentRecord)
    (h : mapGet st.documents k = some r) :
    ∃ r', mapGet (applyOp env st op).documents k = some r' ∧
      r.versions <+: r'.versions := by
  cases op with
  | upload ops metadataInput context now =>
    show ∃ r', mapGet (uploadDocuments env ops metadataInput context now st).1.documents k =
      some r' ∧ r.versions <+: r'.versions
    rw [uploadDocuments]
    split_ifs with h1 h2
    · exact ⟨r, h, List.prefix_refl _⟩
    · exact ⟨r, h, List.prefix_refl _⟩
    · refine ⟨r, ?_, List.prefix_refl _⟩
      rw [uploadLoop_preserves_other env _ _ context now ops st k ?_, h]
      intro op hop hke
      simp only [opFreshB, Bool.and_eq_true, List.all_eq_true] at hfresh
      have := hfresh.2 op hop
      rw [hke] at this
      rw [h] at this
      simp at this
  | addVersion documentId file outcome context now =>
    show ∃ r', mapGet (addDocumentVersion env documentId file outcome context now st).1.documents k =
      some r' ∧ r.versions <+: r'.versions
    rw [addDocumentVersion]
    cases ha : assertContext context with
    | error e => exact ⟨r, h, List.prefix_refl _⟩
    | ok u =>
      obtain ⟨⟩ := u
      dsimp only
      cases hd : getDocumentForUpdate st documentId context with
      | error e => exact ⟨r, h, List.prefix_refl _⟩
      | ok document =>
        dsimp only
        cases hc : createVersion env documentId file outcome context now
            (document.currentVersion + 1) st with
        | error e => exact ⟨r, h, List.prefix_refl _⟩
        | ok pair =>
          obtain ⟨version, st1⟩ := pair
          obtain ⟨hver, hdocs⟩ := createVersion_ok_shape env documentId file outcome context
            now (document.currentVersion + 1) st version st1 hc
          dsimp only
          by_cases hk : documentId = k
          · subst hk
            have hdoc : document = r := by
              have := getDocumentForUpdate_ok_mapGet st documentId context document hd
              rw [h] at this
              exact (Option.some.injEq _ _ ▸ this).symm
            refine ⟨_, mapGet_mapSet_self st1.documents documentId _, ?_⟩
            show r.versions <+: document.versions ++ [version]
            rw [hdoc]
            exact ⟨[version], rfl⟩
          · refine ⟨r, ?_, List.prefix_refl _⟩
            rw [mapGet_mapSet_ne st1.documents k documentId _ (fun he => hk he.symm), hdocs]
            exact h
  | updateMeta documentId input context now =>
    show ∃ r', mapGet (updateMetadata documentId input context now st).1.documents k =
      some r' ∧ r.versions <+: r'.versions
    rw [updateMetadata]
    cases ha : assertContext context with
    | error e => exact ⟨r, h, List.prefix_refl _⟩
    | ok u =>
      obtain ⟨⟩ := u
      dsimp only
      cases hd : getDocumentForUpdate st documentId context with
      | error e => exact ⟨r, h, List.prefix_refl _⟩
      | ok document =>
        dsimp only
        by_cases hk : documentId = k
        · subst hk
          have hdoc : document = r := by
            have := getDocumentForUpdate_ok_mapGet st documentId context document hd
            rw [h] at this
            exact (Option.some.injEq _ _ ▸ this).symm
          refine ⟨_, mapGet_mapSet_self st.documents documentId _, ?_⟩
          show r.versions <+: document.versions
          rw [hdoc]
        · refine ⟨r, ?_, List.prefix_refl _⟩
          rw [mapGet_mapSet_ne st.documents k documentId _ (fun he => hk he.symm)]
          exact h

theorem runOps_append (env : ServiceEnv) :
    ∀ l1 l2 st, runOps env st (l1 ++ l2) = runOps env (runOps env st l1) l2 := by
  intro l1
  induction l1 with
  | nil => intro l2 st; rfl
  | cons op rest ih => intro l2 st; exact ih l2 (applyOp env st op)

theorem runFreshB_split (env : ServiceEnv) :
    ∀ l1 l2 st, runFreshB env st (l1 ++ l2) = true →
      runFreshB env st l1 = true ∧ runFreshB env (runOps env st l1) l2 = true := by
  intro l1
  induction l1 with
  | nil => intro l2 st h; exact ⟨rfl, h⟩
  | cons op rest ih =>
    intro l2 st h
    rw [List.cons_append, runFreshB, Bool.and_eq_true] at h
    obtain ⟨h1, h2⟩ := h
    obtain ⟨h3, h4⟩ := ih l2 (applyOp env st op) h2
    refine ⟨?_, h4⟩
    rw [runFreshB, Bool.and_eq_true]
    exact ⟨h1, h3⟩

theorem runOps_prefix (env : ServiceEnv) :
    ∀ ops st, runFreshB env st ops = true →
      ∀ k r, mapGet st.documents k = some r →
        ∃ r', mapGet (runOps env st ops).documents k = some r' ∧
          r.versions <+: r'.versions := by
  intro ops
  induction ops with
  | nil => intro st h k r hr; exact ⟨r, hr, List.prefix_refl _⟩
  | cons op rest ih =>
    intro st h k r hr
    rw [runFreshB, Bool.and_eq_true] at h
    obtain ⟨h1, h2⟩ := h
    obtain ⟨r1, hr1, hp1⟩ := applyOp_prefix env st op h1 k r hr
    obtain ⟨r', hr', hp2⟩ := ih (applyOp env st op) h2 k r1 hr1
    exact ⟨r', hr', hp1.trans hp2⟩

/-- C5: for every record reachable by any sequence of `uploadDocuments`,
`addDocumentVersion` and `updateMetadata` calls (with fresh `uuidv4` draws),
the stored version numbers are exactly `1..currentVersion` in order with no
gaps, `currentVersion` is the number of the last appended version, and no
operation replaces or removes a previously appended version: along any
continuation of the run, a record's versions list only ever grows by
appending (the old list stays a prefix). -/
theorem version_numbers_contiguous (env : ServiceEnv) (ops : List ServiceOp)
    (hfresh : runFreshB env emptyState ops = true) :
    (∀ p ∈ (runOps env emptyState ops).documents,
      p.2.versions.map DocumentVersion.version = List.range' 1 p.2.currentVersion ∧
      1 ≤ p.2.currentVersion ∧
      (p.2.versions.map DocumentVersion.version).getLast? = some p.2.currentVersion) ∧
    (∀ pre suf, ops = pre ++ suf →
      ∀ k r, mapGet (runOps env emptyState pre).documents k = some r →
        ∃ r', mapGet (runOps env emptyState ops).documents k = some r' ∧
          r.versions <+: r'.versions) := by
  constructor
  · intro p hp
    have hinv := runOps_inv env ops emptyState (fun q hq => by simp [emptyState] at hq) p hp
    obtain ⟨h1, h2⟩ := hinv
    refine ⟨h1, h2, ?_⟩
    rw [h1]
    obtain ⟨m, hm⟩ : ∃ m, p.2.currentVersion = m + 1 := ⟨p.2.currentVersion - 1, by omega⟩
    rw [hm, range'_succ_concat, List.getLast?_concat]
  · intro pre suf hsplit k r hr
    subst hsplit
    obtain ⟨h1, h2⟩ := runFreshB_split env pre suf emptyState hfresh
    rw [runOps_append]
    exact runOps_prefix env suf (runOps env emptyState pre) h2 k r hr

/-- Witness for C5 at a concrete input: after an upload followed by a
version append, the stored record has versions `1..currentVersion` ending at
`currentVersion`. -/
theorem version_numbers_contiguous_witness :
    ∃ r, mapGet (runOps testEnv emptyState
        [ServiceOp.upload [⟨"doc-a", pdfFile, okOutcome⟩] emptyInput ⟨"user-5", []⟩ 1,
         ServiceOp.addVersion "doc-a" oversizedBufferFile okOutcome ⟨"user-5", []⟩ 2]).documents
        "doc-a" = some r ∧
      (r.versions.map DocumentVersion.version = List.range' 1 r.currentVersion ∧
       1 ≤ r.currentVersion ∧
       (r.versions.map DocumentVersion.version).getLast? = some r.currentVersion) := by
  refine ⟨_, rfl, ?_⟩
  exact (version_numbers_contiguous testEnv
    [ServiceOp.upload [⟨"doc-a", pdfFile, okOutcome⟩] emptyInput ⟨"user-5", []⟩ 1,
     ServiceOp.addVersion "doc-a" oversizedBufferFile okOutcome ⟨"user-5", []⟩ 2]
    (by decide)).1 _ (mapGet_mem _ _ _ rfl)

/-! ## Signing protocol refinement (C3) -/

/-- C3: for fixed configuration and time, the durable provider's signature
is computed exactly as the spec's seven-step scheme describes: the canonical
request is `METHOD \n canonical URI (percent-encoded, '/bucket/key'
path-style, '/key' otherwise) \n canonical query \n host line \n empty line
\n 'host' \n 'UNSIGNED-PAYLOAD'`; the string-to-sign is `'AWS4-HMAC-SHA256'
\n timestamp \n '{date}/{region}/s3/aws4_request' \n hex(sha256(canonical
request))`; the signing key is the four-level HMAC chain seeded with
`'AWS4'+secretKey` folding in date-stamp, region, 's3', 'aws4_request' in
that order; the signature is `hex(HMAC-SHA256(signingKey, stringToSign))`
and is appended to the query as `X-Amz-Signature`. -/
theorem s3_signature_matches_spec
    (p : CryptoPrims) (config : StorageConfig) (isoNow key : String)
    (expiresInSeconds : Nat) (method : SignMethod) (parts : SignedUrlParts)
    (h : s3SignedUrlParts p config isoNow key expiresInSeconds method = .ok parts) :
    parts.canonicalUri =
      (if config.s3.forcePathStyle then
        "/" ++ config.s3.bucket ++ "/" ++ joinSlash ((splitSlash key).map p.encComp)
       else "/" ++ joinSlash ((splitSlash key).map p.encComp)) ∧
    parts.canonicalRequest =
      specCanonicalRequest (methodStr method) parts.canonicalUri parts.canonicalQuery
        (resolveHost config.s3) ∧
    parts.stringToSign =
      specStringToSign p (toAmzDate isoNow)
        (specCredentialScope (toDateStamp isoNow) config.s3.region)
        parts.canonicalRequest ∧
    parts.signingKey =
      specSigningKey p (config.s3.secretAccessKey.getD "") (toDateStamp isoNow)
        config.s3.region ∧
    parts.signature = specSignature p (config.s3.secretAccessKey.getD "")
      (toDateStamp isoNow) config.s3.region (toAmzDate isoNow) (methodStr method)
      parts.canonicalUri parts.canonicalQuery (resolveHost config.s3) ∧
    parts.url = buildBaseUrl config.s3 ++ parts.canonicalUri ++ "?" ++ parts.canonicalQuery ++
      "&" ++ p.formEnc "X-Amz-Signature" ++ "=" ++ p.formEnc parts.signature := by
  rw [s3SignedUrlParts] at h
  by_cases hc : config.s3.accessKeyId.getD "" = "" ∨ config.s3.secretAccessKey.getD "" = ""
  · rw [if_pos hc] at h
    simp at h
  · rw [if_neg hc] at h
    dsimp only at h
    simp only [Except.ok.injEq] at h
    subst h
    dsimp only
    have hcr : joinNl [methodStr method,
        buildCanonicalUri p config.s3.bucket key config.s3.forcePathStyle,
        querySerialize p
          [("X-Amz-Algorithm", "AWS4-HMAC-SHA256"),
           ("X-Amz-Credential", config.s3.accessKeyId.getD "" ++ "/" ++
             (toDateStamp isoNow ++ "/" ++ config.s3.region ++ "/s3/aws4_request")),
           ("X-Amz-Date", toAmzDate isoNow),
           ("X-Amz-Expires", natStr expiresInSeconds),
           ("X-Amz-SignedHeaders", "host")],
        "host:" ++ resolveHost config.s3 ++ "\n", "host", "UNSIGNED-PAYLOAD"] =
      specCanonicalRequest (methodStr method)
        (buildCanonicalUri p config.s3.bucket key config.s3.forcePathStyle)
        (querySerialize p
          [("X-Amz-Algorithm", "AWS4-HMAC-SHA256"),
           ("X-Amz-Credential", config.s3.accessKeyId.getD "" ++ "/" ++
             (toDateStamp isoNow ++ "/" ++ config.s3.region ++ "/s3/aws4_request")),
           ("X-Amz-Date", toAmzDate isoNow),
           ("X-Amz-Expires", natStr expiresInSeconds),
           ("X-Amz-SignedHeaders", "host")])
        (resolveHost config.s3) := by
      rw [specCanonicalRequest]
      apply strData_inj
      simp only [joinNl, String.data_append, List.append_assoc]
    refine ⟨?_, ?_, ?_, ?_, ?_, ?_⟩
    · rw [buildCanonicalUri]
    · exact hcr
    · rw [specStringToSign, specCredentialScope]
      apply strData_inj
      simp only [joinNl, String.data_append, List.append_assoc]
    · rw [getSignatureKey, specSigningKey]
    · rw [specSignature]
      show p.hmacHex _ _ = p.hmacHex _ _
      rw [getSignatureKey, specSigningKey]
      congr 1
      rw [← hcr]
      rw [specStringToSign, specCredentialScope]
      apply strData_inj
      simp only [joinNl, String.data_append, List.append_assoc]
    · rw [querySerialize, querySerialize]
      apply strData_inj
      simp only [joinAmp, List.map_append, List.map_cons, List.map_nil, List.append_assoc,
        String.data_append]

/-- Witness for C3 at a concrete input: the computed parts satisfy the
spec's formula for the signature. -/
theorem s3_signature_matches_spec_witness :
    ∃ parts, s3SignedUrlParts litePrims testConfig "2024-01-02T03:04:05.678Z" "a/b c.pdf" 900
        SignMethod.GET = .ok parts ∧
      parts.signature = specSignature litePrims (testConfig.s3.secretAccessKey.getD "")
        (toDateStamp "2024-01-02T03:04:05.678Z") testConfig.s3.region
        (toAmzDate "2024-01-02T03:04:05.678Z") (methodStr SignMethod.GET)
        parts.canonicalUri parts.canonicalQuery (resolveHost testConfig.s3) :=
  ⟨_, rfl, (s3_signature_matches_spec litePrims testConfig "2024-01-02T03:04:05.678Z"
    "a/b c.pdf" 900 SignMethod.GET _ rfl).2.2.2.2.1⟩

/-! ## Key-encoding injectivity (for C7) -/

theorem joinSlash_data : ∀ ls : List String,
    (joinSlash ls).data = joinSlashChars (ls.map String.data) := by
  intro ls
  induction ls with
  | nil => rfl
  | cons x rest ih =>
    cases rest with
    | nil => rfl
    | cons y t =>
      show (x ++ "/" ++ joinSlash (y :: t)).data = x.data ++ '/' :: joinSlashChars ((y :: t).map String.data)
      rw [String.data_append, String.data_append, ← ih, List.append_assoc]
      rfl

theorem splitSlashChars_ne_nil : ∀ l : List Char, splitSlashChars l ≠ [] := by
  intro l
  cases l with
  | nil => simp [splitSlashChars]
  | cons c rest =>
    rw [splitSlashChars]
    split_ifs with h
    · simp
    · cases hs : splitSlashChars rest with
      | nil => simp
      | cons s ss => simp

theorem splitSlashChars_noslash : ∀ (l : List Char) (seg : List Char),
    seg ∈ splitSlashChars l → '/' ∉ seg := by
  intro l
  induction l with
  | nil =>
    intro seg hseg
    simp [splitSlashChars] at hseg
    simp [hseg]
  | cons c rest ih =>
    intro seg hseg
    rw [splitSlashChars] at hseg
    split_ifs at hseg with h
    · rcases List.mem_cons.mp hseg with h1 | h2
      · simp [h1]
      · exact ih seg h2
    · cases hs : splitSlashChars rest with
      | nil =>
        rw [hs] at hseg
        simp only [List.mem_singleton] at hseg
        subst hseg
        intro hmem
        rcases List.mem_cons.mp hmem with h1 | h2
        · exact h h1.symm
        · simp at h2
      | cons s ss =>
        rw [hs] at hseg
        rcases List.mem_cons.mp hseg with h1 | h2
        · subst h1
          intro hmem
          rcases List.mem_cons.mp hmem with h1 | h2
          · exact h h1.symm
          · exact ih s (hs ▸ List.mem_cons_self s ss) h2
        · exact ih seg (hs ▸ List.mem_cons_of_mem s h2)

theorem joinSlashChars_splitSlashChars : ∀ l : List Char,
    joinSlashChars (splitSlashChars l) = l := by
  intro l
  induction l with
  | nil => rfl
  | cons c rest ih =>
    rw [splitSlashChars]
    split_ifs with h
    · subst h
      cases hs : splitSlashChars rest with
      | nil => exact absurd hs (splitSlashChars_ne_nil rest)
      | cons s ss =>
        show [] ++ '/' :: joinSlashChars (s :: ss) = '/' :: rest
        rw [hs] at ih
        rw [List.nil_append, ih]
    · cases hs : splitSlashChars rest with
      | nil => exact absurd hs (splitSlashChars_ne_nil rest)
      | cons s ss =>
        cases ss with
        | nil =>
          show c :: s = c :: rest
          rw [hs] at ih
          show c :: s = c :: rest
          have : joinSlashChars [s] = rest := ih
          rw [← this]
          rfl
        | cons s2 t =>
          show (c :: s) ++ '/' :: joinSlashChars (s2 :: t) = c :: rest
          rw [hs] at ih
          have : s ++ '/' :: joinSlashChars (s2 :: t) = rest := ih
          rw [List.cons_append, this]

theorem joinSlashChars_inj : ∀ (ls1 ls2 : List (List Char)), ls1 ≠ [] → ls2 ≠ [] →
    (∀ s ∈ ls1, '/' ∉ s) → (∀ s ∈ ls2, '/' ∉ s) →
    joinSlashChars ls1 = joinSlashChars ls2 → ls1 = ls2 := by
  intro ls1
  induction ls1 with
  | nil => intro ls2 h1; exact absurd rfl h1
  | cons x r1 ih =>
    intro ls2 h1 h2 hn1 hn2 heq
    cases ls2 with
    | nil => exact absurd rfl h2
    | cons y r2 =>
      cases r1 with
      | nil =>
        cases r2 with
        | nil =>
          show [x] = [y]
          rw [show joinSlashChars [x] = x from rfl, show joinSlashChars [y] = y from rfl] at heq
          rw [heq]
        | cons y2 t2 =>
          exfalso
          rw [show joinSlashChars [x] = x from rfl] at heq
          have hsl : '/' ∈ joinSlashChars (y :: y2 :: t2) :=
            List.mem_append.mpr (Or.inr (List.mem_cons_self _ _))
          rw [← heq] at hsl
          exact hn1 x (List.mem_cons_self x []) hsl
      | cons x2 t1 =>
        cases r2 with
        | nil =>
          exfalso
          rw [show joinSlashChars [y] = y from rfl] at heq
          have hsl : '/' ∈ joinSlashChars (x :: x2 :: t1) :=
            List.mem_append.mpr (Or.inr (List.mem_cons_self _ _))
          rw [heq] at hsl
          exact hn2 y (List.mem_cons_self y []) hsl
        | cons y2 t2 =>
          have heq' : x ++ '/' :: joinSlashChars (x2 :: t1) =
              y ++ '/' :: joinSlashChars (y2 :: t2) := heq
          obtain ⟨hxy, hrest⟩ := markerSplit heq'
            (hn1 x (List.mem_cons_self _ _)) (hn2 y (List.mem_cons_self _ _))
          have := ih (y2 :: t2) (by simp) (by simp)
            (fun s hs => hn1 s (List.mem_cons_of_mem _ hs))
            (fun s hs => hn2 s (List.mem_cons_of_mem _ hs)) hrest
          rw [hxy, this]

theorem encodedKey_inj (p : CryptoPrims)
    (hencInj : Function.Injective p.encComp)
    (hencSlash : ∀ s, '/' ∉ (p.encComp s).data)
    (k1 k2 : String)
    (h : joinSlash ((splitSlash k1).map p.encComp) = joinSlash ((splitSlash k2).map p.encComp)) :
    k1 = k2 := by
  have hd := congrArg String.data h
  rw [joinSlash_data, joinSlash_data] at hd
  rw [splitSlash, splitSlash] at hd
  simp only [List.map_map] at hd
  have hinj := joinSlashChars_inj _ _
    (by simp [splitSlashChars_ne_nil k1.data])
    (by simp [splitSlashChars_ne_nil k2.data])
    (by
      intro s hs
      simp only [List.mem_map, Function.comp] at hs
      obtain ⟨seg, hseg, rfl⟩ := hs
      exact hencSlash _)
    (by
      intro s hs
      simp only [List.mem_map, Function.comp] at hs
      obtain ⟨seg, hseg, rfl⟩ := hs
      exact hencSlash _) hd
  have hsegs : splitSlashChars k1.data = splitSlashChars k2.data := by
    refine mapMemInj _ _ _ hinj ?_
    intro a ha b hb hab
    have : String.mk a = String.mk b := by
      apply hencInj
      apply strData_inj
      exact hab
    exact congrArg String.data this
  have := congrArg joinSlashChars hsegs
  rw [joinSlashChars_splitSlashChars, joinSlashChars_splitSlashChars] at this
  exact strData_inj this

/-! ## Signature determinism and sensitivity (C7) -/

theorem s3Parts_signature (p : CryptoPrims) (config : StorageConfig) (isoNow key : String)
    (expiresInSeconds : Nat) (method : SignMethod) (parts : SignedUrlParts)
    (h : s3SignedUrlParts p config isoNow key expiresInSeconds method = .ok parts) :
    parts.signature =
      p.hmacHex
        (getSignatureKey p (config.s3.secretAccessKey.getD "") (toDateStamp isoNow)
          config.s3.region "s3")
        (joinNl ["AWS4-HMAC-SHA256", toAmzDate isoNow,
          toDateStamp isoNow ++ "/" ++ config.s3.region ++ "/s3/aws4_request",
          p.sha256Hex (joinNl [methodStr method,
            buildCanonicalUri p config.s3.bucket key config.s3.forcePathStyle,
            querySerialize p
              [("X-Amz-Algorithm", "AWS4-HMAC-SHA256"),
               ("X-Amz-Credential", config.s3.accessKeyId.getD "" ++ "/" ++
                 (toDateStamp isoNow ++ "/" ++ config.s3.region ++ "/s3/aws4_request")),
               ("X-Amz-Date", toAmzDate isoNow),
               ("X-Amz-Expires", natStr expiresInSeconds),
               ("X-Amz-SignedHeaders", "host")],
            "host:" ++ resolveHost config.s3 ++ "\n", "host", "UNSIGNED-PAYLOAD"])]) := by
  rw [s3SignedUrlParts] at h
  by_cases hc : config.s3.accessKeyId.getD "" = "" ∨ config.s3.secretAccessKey.getD "" = ""
  · rw [if_pos hc] at h
    simp at h
  · rw [if_neg hc] at h
    dsimp only at h
    simp only [Except.ok.injEq] at h
    subst h
    rfl

theorem methodStr_inj {m1 m2 : SignMethod} (h : methodStr m1 = methodStr m2) : m1 = m2 := by
  cases m1 <;> cases m2 <;> first | rfl | exact absurd h (by decide)

/-- C7: both providers' `getSignedUrl` are deterministic — fixed key,
method, expiry, configuration and time always produce the same URL — and,
when the cryptographic primitives are collision-free on the relevant inputs
(injective `encodeURIComponent`/form-encoding whose output never contains a
slash, injective SHA-256 hex and per-key injective HMAC hex — true of the
real primitives up to hash collisions), two calls differing in exactly one
of key, method, or `expiresInSeconds` produce different signatures. -/
theorem signed_url_determinism_and_sensitivity
    (p : CryptoPrims) (config : StorageConfig) (isoNow : String) (nowMs : Nat)
    (hencInj : Function.Injective p.encComp)
    (hencSlash : ∀ s, '/' ∉ (p.encComp s).data)
    (hformInj : Function.Injective p.formEnc)
    (hshaInj : Function.Injective p.sha256Hex)
    (hhmacInj : ∀ sk, Function.Injective (p.hmacHex sk))
    (hhmacSInj : ∀ sk, Function.Injective (p.hmacHexS sk)) :
    (∀ key expiresInSeconds method,
      s3GetSignedUrl p config isoNow key expiresInSeconds method =
        s3GetSignedUrl p config isoNow key expiresInSeconds method ∧
      inMemoryGetSignedUrl p config nowMs key expiresInSeconds method =
        inMemoryGetSignedUrl p config nowMs key expiresInSeconds method) ∧
    (∀ k1 k2 expiresInSeconds method parts1 parts2,
      s3SignedUrlParts p config isoNow k1 expiresInSeconds method = .ok parts1 →
      s3SignedUrlParts p config isoNow k2 expiresInSeconds method = .ok parts2 →
      k1 ≠ k2 → parts1.signature ≠ parts2.signature) ∧
    (∀ key expiresInSeconds m1 m2 parts1 parts2,
      s3SignedUrlParts p config isoNow key expiresInSeconds m1 = .ok parts1 →
      s3SignedUrlParts p config isoNow key expiresInSeconds m2 = .ok parts2 →
      m1 ≠ m2 → parts1.signature ≠ parts2.signature) ∧
    (∀ key e1 e2 method parts1 parts2,
      s3SignedUrlParts p config isoNow key e1 method = .ok parts1 →
      s3SignedUrlParts p config isoNow key e2 method = .ok parts2 →
      e1 ≠ e2 → parts1.signature ≠ parts2.signature) ∧
    (∀ k1 k2 expiresInSeconds method, k1 ≠ k2 →
      inMemorySignature p config nowMs k1 expiresInSeconds method ≠
        inMemorySignature p config nowMs k2 expiresInSeconds method) ∧
    (∀ key expiresInSeconds m1 m2, m1 ≠ m2 →
      inMemorySignature p config nowMs key expiresInSeconds m1 ≠
        inMemorySignature p config nowMs key expiresInSeconds m2) ∧
    (∀ key e1 e2 method, e1 ≠ e2 →
      inMemorySignature p config nowMs key e1 method ≠
        inMemorySignature p config nowMs key e2 method) := by
  refine ⟨fun key e m => ⟨rfl, rfl⟩, ?_, ?_, ?_, ?_, ?_, ?_⟩
  · intro k1 k2 e m parts1 parts2 h1 h2 hne hsig
    rw [s3Parts_signature p config isoNow k1 e m parts1 h1,
        s3Parts_signature p config isoNow k2 e m parts2 h2] at hsig
    have hsts := hhmacInj _ hsig
    have hd := congrArg String.data hsts
    simp only [joinNl, String.data_append, List.append_assoc, List.append_right_inj] at hd
    have hcr := hshaInj (strData_inj hd)
    have hcd := congrArg String.data hcr
    by_cases hps : config.s3.forcePathStyle
    · simp only [buildCanonicalUri, if_pos hps] at hcd
      simp only [joinNl, String.data_append, List.append_assoc, List.append_right_inj,
        List.append_left_inj] at hcd
      exact hne (encodedKey_inj p hencInj hencSlash k1 k2 (strData_inj hcd))
    · simp only [buildCanonicalUri, if_neg hps] at hcd
      simp only [joinNl, String.data_append, List.append_assoc, List.append_right_inj,
        List.append_left_inj] at hcd
      exact hne (encodedKey_inj p hencInj hencSlash k1 k2 (strData_inj hcd))
  · intro key e m1 m2 parts1 parts2 h1 h2 hne hsig
    rw [s3Parts_signature p config isoNow key e m1 parts1 h1,
        s3Parts_signature p config isoNow key e m2 parts2 h2] at hsig
    have hsts := hhmacInj _ hsig
    have hd := congrArg String.data hsts
    simp only [joinNl, String.data_append, List.append_assoc, List.append_right_inj] at hd
    have hcr := hshaInj (strData_inj hd)
    have hcd := congrArg String.data hcr
    simp only [joinNl, String.data_append, List.append_assoc, List.append_left_inj] at hcd
    exact hne (methodStr_inj (strData_inj hcd))
  · intro key e1 e2 m parts1 parts2 h1 h2 hne hsig
    rw [s3Parts_signature p config isoNow key e1 m parts1 h1,
        s3Parts_signature p config isoNow key e2 m parts2 h2] at hsig
    have hsts := hhmacInj _ hsig
    have hd := congrArg String.data hsts
    simp only [joinNl, String.data_append, List.append_assoc, List.append_right_inj] at hd
    have hcr := hshaInj (strData_inj hd)
    have hcd := congrArg String.data hcr
    simp only [joinNl, querySerialize, joinAmp, List.map_cons, List.map_nil,
      String.data_append, List.append_assoc, List.append_right_inj,
      List.append_left_inj] at hcd
    exact hne (natStr_inj (hformInj (strData_inj hcd)))
  · intro k1 k2 e m hne hsig
    rw [inMemorySignature, inMemorySignature] at hsig
    have hmsg := hhmacSInj _ hsig
    have hd := congrArg String.data hmsg
    simp only [String.data_append, List.append_assoc, List.append_right_inj,
      List.append_left_inj] at hd
    exact hne (strData_inj hd)
  · intro key e m1 m2 hne hsig
    rw [inMemorySignature, inMemorySignature] at hsig
    have hmsg := hhmacSInj _ hsig
    have hd := congrArg String.data hmsg
    simp only [String.data_append, List.append_assoc, List.append_left_inj] at hd
    exact hne (methodStr_inj (strData_inj hd))
  · intro key e1 e2 m hne hsig
    rw [inMemorySignature, inMemorySignature] at hsig
    have hmsg := hhmacSInj _ hsig
    have hd := congrArg String.data hmsg
    simp only [String.data_append, List.append_assoc, List.append_right_inj] at hd
    have := natStr_inj (strData_inj hd)
    omega

theorem natStr_no_underscore (n : Nat) : '_' ∉ (natStr n).data := by
  intro h
  have := natStr_isDigit n '_' h
  exact absurd this (by decide)

theorem natStr_no_slash_char (n : Nat) : '/' ∉ (natStr n).data := by
  intro h
  have := natStr_isDigit n '/' h
  exact absurd this (by decide)

theorem encCompLite_noslash (s : String) : '/' ∉ (encCompLite s).data := by
  intro h
  rw [encCompLite] at h
  have h' : '/' ∈ s.data.flatMap (fun c => (natStr c.toNat).data ++ ['_']) := h
  obtain ⟨c, hc, hmem⟩ := List.mem_flatMap.mp h'
  rcases List.mem_append.mp hmem with h1 | h2
  · exact natStr_no_slash_char c.toNat h1
  · simp at h2

theorem flatMapDigits_inj :
    ∀ l1 l2 : List Char,
      l1.flatMap (fun c => (natStr c.toNat).data ++ ['_']) =
        l2.flatMap (fun c => (natStr c.toNat).data ++ ['_']) → l1 = l2 := by
  intro l1
  induction l1 with
  | nil =>
    intro l2 h
    cases l2 with
    | nil => rfl
    | cons y t =>
      exfalso
      rw [List.flatMap_nil, List.flatMap_cons] at h
      have := congrArg List.length h
      simp at this
      omega
  | cons x t1 ih =>
    intro l2 h
    cases l2 with
    | nil =>
      exfalso
      rw [List.flatMap_nil, List.flatMap_cons] at h
      have := congrArg List.length h
      simp at this
    | cons y t2 =>
      rw [List.flatMap_cons, List.flatMap_cons] at h
      rw [List.append_assoc, List.append_assoc, List.singleton_append,
          List.singleton_append] at h
      obtain ⟨hbody, hrest⟩ := markerSplit h (natStr_no_underscore x.toNat)
        (natStr_no_underscore y.toNat)
      have hxy : x = y := by
        have h1 : natStr x.toNat = natStr y.toNat := strData_inj hbody
        have h2 : x.toNat = y.toNat := natStr_inj h1
        exact Char.eq_of_val_eq (UInt32.eq_of_toBitVec_eq (BitVec.eq_of_toNat_eq h2))
      rw [hxy, ih t2 hrest]

theorem encCompLite_inj : Function.Injective encCompLite := by
  intro s1 s2 h
  apply strData_inj
  have hd : s1.data.flatMap (fun c => (natStr c.toNat).data ++ ['_']) =
      s2.data.flatMap (fun c => (natStr c.toNat).data ++ ['_']) := congrArg String.data h
  exact flatMapDigits_inj s1.data s2.data hd

/-- Witness for C7 at a concrete input: with concrete injective primitives,
the in-memory signatures of two different keys differ. -/
theorem signed_url_determinism_and_sensitivity_witness :
    inMemorySignature litePrims testConfig 1000 "a" 300 SignMethod.GET ≠
      inMemorySignature litePrims testConfig 1000 "b" 300 SignMethod.GET :=
  (signed_url_determinism_and_sensitivity litePrims testConfig "2024-01-02T03:04:05.678Z"
    1000 encCompLite_inj encCompLite_noslash (fun _ _ hab => hab) (fun _ _ hab => hab)
    (fun _ _ _ hab => hab) (fun _ _ _ hab => hab)).2.2.2.2.1 "a" "b" 300 SignMethod.GET
    (by decide)
